import Mathlib

/-!
# Verification of the UEVaultManager asset-record merge engine and dataset view

Shallow embedding of the core logic of the repository:

* `update_and_merge_csv_record_data` (src/UEVaultManager/cli.py, inside `list_assets`):
  the CSV merge engine that reconciles a freshly scraped record with the row already
  persisted in the output file.
* the deduplication / tie-break pass of `list_assets` over the scraped catalog items.
* the pagination state machine of `EditableTable`
  (src/UEVaultManager/tkgui/modules/cls/EditableTableClass.py).
* the dirty-row / delete-set tracking and `save_data` of the same class.

Python values flowing through the merge are modelled by `CellValue`; machine floats are
modelled by `Rat` (the merge only moves the parsed numbers around, it never does float
arithmetic whose rounding could be observed).  Fallible operations (list indexing, the
`','.join` of a list containing a non-string, i.e. a Python `IndexError`/`TypeError`)
return `Option`.
-/

/-- A Python value as it occurs in a scraped asset record: a string, a boolean, or a
number (float/int, modelled as `Rat`). -/
inductive CellValue where
  | str (s : String)
  | bool (b : Bool)
  | num (q : Rat)
deriving Repr, DecidableEq

/-- An existing CSV row as produced by `csv.DictReader`: an association of column name
to string value (insertion-ordered, first binding wins on lookup). -/
abbrev CsvRow := List (String × String)

/-- Association-list lookup, mirroring Python `dict.get(key)` (returns `None` when the
key is absent). -/
def lookupAssoc {α : Type} : List (String × α) → String → Option α
  | [], _ => none
  | (k, v) :: rest, key => if k = key then some v else lookupAssoc rest key

/-- `l[i] = v` with Python semantics: `none` models the `IndexError` raised on an
out-of-range assignment. -/
def pySet (l : List CellValue) (i : Nat) (v : CellValue) : Option (List CellValue) :=
  if i < l.length then some (l.set i v) else none

/-- `s.split(sep)` on the underlying character list: splits at every separator and
keeps empty groups, so the result is never empty (Python `''.split(',') == ['']`). -/
def splitOnChar (sep : Char) : List Char → List (List Char)
  | [] => [[]]
  | c :: rest =>
    if c = sep then [] :: splitOnChar sep rest
    else
      match splitOnChar sep rest with
      | [] => [[c]]
      | g :: gs => (c :: g) :: gs

/-- `value.split(',')` on the underlying character list. -/
def splitCommaChars : List Char → List (List Char) := splitOnChar ','

/-- `value.split(',')` for strings. -/
def splitComma (s : String) : List String :=
  (splitCommaChars s.data).map (fun cs => String.mk cs)

/-- `','.join(l)` for a list of strings. -/
def joinComma : List String → String
  | [] => ""
  | [s] => s
  | s :: rest => s ++ "," ++ joinComma rest

/-- Modelled from the spec: `str_is_bool` (UEVaultManager/utils/cli.py is not among the
provided sources).  The spec says boolean cells are stored as the textual literals
`True`/`False` (§6 flat file format), and the merge coerces exactly those literals. -/
def str_is_bool (s : String) : Bool :=
  s = "True" || s = "False"

/-- Modelled from the spec: `str_to_bool` (UEVaultManager/utils/cli.py is not among the
provided sources): the textual literal for boolean true maps to `true`. -/
def str_to_bool (s : String) : Bool :=
  s = "True"

/-- Digits of a decimal numeral to a natural number; `none` when a non-digit occurs. -/
def digitsToNat : List Char → Nat → Option Nat
  | [], acc => some acc
  | c :: rest, acc =>
    if c.isDigit then digitsToNat rest (acc * 10 + (c.toNat - '0'.toNat)) else none

/-- Modelled from the spec: the `numeric(...)` conversion (`convert_to_float` in
UEVaultManager/tkgui/modules/functions_no_deps.py, not among the provided sources).
Parses an optionally signed decimal numeral with at most one decimal point; any value
that cannot be converted falls back to `0` (the merge initialises its price accumulators
from the caller's zero `no_data_value`). -/
def convert_to_float_str (s : String) : Rat :=
  let (sign, cs) : Int × List Char :=
    match s.data with
    | '-' :: rest => (-1, rest)
    | cs => (1, cs)
  match splitOnChar '.' cs with
  | [intPart] =>
    match digitsToNat intPart 0 with
    | some n => mkRat (sign * (n : Int)) 1
    | none => 0
  | [intPart, fracPart] =>
    match digitsToNat intPart 0, digitsToNat fracPart 0 with
    | some n, some m =>
      mkRat (sign * ((n * 10 ^ fracPart.length + m : Nat) : Int)) (10 ^ fracPart.length)
    | _, _ => 0
  | _ => 0

/-- Modelled from the spec: `numeric(...)` applied to an already-typed Python value
(Python `float(x)`): numbers convert to themselves, booleans to 0/1, strings are
parsed. -/
def convert_to_float_cell : CellValue → Rat
  | .str s => convert_to_float_str s
  | .bool b => if b then 1 else 0
  | .num q => q

/-- The state threaded through the merge loop of `update_and_merge_csv_record_data`:
the record being built (`_csv_record`), the bookkeeping for the one-step price history
(`price_index`, `_price`, `old_price`) and the warnings logged so far. -/
structure LoopSt where
  csvRecord : List CellValue
  priceIndex : Nat
  price : Rat
  oldPrice : Rat
  warns : List String
deriving Repr, DecidableEq

/-- One iteration of the merge loop
(`for index, csv_field in enumerate(get_csv_field_name_list())` in
`update_and_merge_csv_record_data`, src/UEVaultManager/cli.py):

* a column missing from the existing row is logged and skipped;
* an existing value equal to the designated empty-cell marker clears the cell to `''`;
* `Price` records the column position and captures the old price from the file;
* `Origin` merges the stored comma-separated folder list with the incoming value
  (appended only when not already present); a non-string incoming cell would make
  `','.join` raise `TypeError`, modelled as `none`;
* a field whose provenance is PRESERVED finally takes the stored value, coerced to a
  boolean when it is a textual boolean literal. -/
def mergeStep (P : String → Bool) (mark : String) (row : CsvRow)
    (st : LoopSt) (i : Nat) (f : String) : Option LoopSt :=
  match lookupAssoc row f with
  | none => some { st with warns := st.warns ++ ["no column named " ++ f] }
  | some v =>
    if v = mark then
      match pySet st.csvRecord i (CellValue.str "") with
      | none => none
      | some r => some { st with csvRecord := r }
    else
      match (if f = "Price" then
          match st.csvRecord.get? i with
          | none => none
          | some c =>
            some { st with priceIndex := i, price := convert_to_float_cell c,
                           oldPrice := convert_to_float_str v }
        else if f = "Origin" then
          match st.csvRecord.get? i with
          | none => none
          | some (CellValue.str s) =>
            (match pySet st.csvRecord i (CellValue.str (joinComma
                (if s ∈ splitComma v then splitComma v else splitComma v ++ [s]))) with
             | none => none
             | some r => some { st with csvRecord := r })
          | some _ => none
        else some st : Option LoopSt) with
      | none => none
      | some st1 =>
        if P f then
          match pySet st1.csvRecord i
              (if str_is_bool v then CellValue.bool (str_to_bool v) else CellValue.str v) with
          | none => none
          | some r => some { st1 with csvRecord := r }
        else some st1

/-- The merge loop over the registry's field list, starting at column position `i`. -/
def mergeLoop (P : String → Bool) (mark : String) (row : CsvRow) :
    Nat → List String → LoopSt → Option LoopSt
  | _, [], st => some st
  | i, f :: fs, st =>
    match mergeStep P mark row st i f with
    | none => none
    | some st' => mergeLoop P mark row (i + 1) fs st'

/-- The result of one merge: the record to be written to the CSV file plus the
error/warning messages logged while producing it. -/
structure MergeOutput where
  record : List CellValue
  errors : List String
  warnings : List String
deriving Repr, DecidableEq

/-- `update_and_merge_csv_record_data` (src/UEVaultManager/cli.py, lines 385-448):
merges the freshly built record `assetData` (positional values, in registry order) with
the row stored for `assetId` in the existing file data `itemsInFile`.

* `P` is the registry's `is_preserved`, `fieldNames` its `get_csv_field_name_list()`,
  `mark` the designated empty-cell marker `gui_g.s.empty_cell`, `noData` the caller's
  `_no_data_value` (the registry and settings module are not among the provided
  sources; the claims instantiate them with spec-modelled values).
* An `asset_id` absent from the file — or mapped to an empty row, which is falsy in
  the source's `if _items_in_file.get(_asset_id):` — returns the incoming record
  unchanged.
* A row whose key count differs from the registry's field count is logged as an error
  and the incoming record is returned unchanged.
* Otherwise the merge loop runs and, when a price column was seen at a positive
  position, the old price is written to the following column. -/
def update_and_merge_csv_record_data (fieldNames : List String) (P : String → Bool)
    (mark : String) (noData : Rat) (assetId : String) (assetData : List CellValue)
    (itemsInFile : List (String × CsvRow)) : Option MergeOutput :=
  -- `csv_fields_count` is `fieldNames.length`; `_csv_record` starts as `assetData`
  match lookupAssoc itemsInFile assetId with
  | none => some ⟨assetData, [], []⟩
  | some itemInFile =>
    if itemInFile.isEmpty then some ⟨assetData, [], []⟩
    else if itemInFile.length ≠ fieldNames.length then
      some ⟨assetData,
        ["asset " ++ assetId ++ " has not the same number of keys as the CSV headings"],
        []⟩
    else
      match mergeLoop P mark itemInFile 0 fieldNames
          ⟨assetData, 0, noData, noData, []⟩ with
      | none => none
      | some st =>
        if st.priceIndex > 0 then
          match pySet st.csvRecord (st.priceIndex + 1) (CellValue.num st.oldPrice) with
          | none => none
          | some r => some ⟨r, [], st.warns⟩
        else some ⟨st.csvRecord, [], st.warns⟩

/-- Modelled from the spec: the ordered CSV field list of the Field Schema Registry
(`get_csv_field_name_list` in UEVaultManager/models/csv_sql_fields.py, not among the
provided sources).  The order follows the record layout documented field-by-field in
`create_asset_from_data` (src/UEVaultManager/cli.py): identity and catalog metadata
first, `Old price` directly after `Price` (the merge writes the captured history to the
next column), then the user fields. -/
def csv_field_name_list_model : List String :=
  ["Asset_id", "App name", "App title", "Category", "Review", "Developer",
   "Description", "Status", "Discount price", "Discount percentage", "Discounted",
   "Owned", "Obsolete", "Supported versions", "Grab result", "Price", "Old price",
   "Comment", "Stars", "Must buy", "Test result", "Installed folder", "Alternative",
   "Origin", "Added manually"]

/-- Modelled from the spec: the registry's provenance classes (`is_preserved` in
UEVaultManager/models/csv_sql_fields.py, not among the provided sources).  Per the
spec's data model, the user fields are PRESERVED; `Origin` is special-cased by the
merge (never purely preserved); `Old price` and `Obsolete` are COMPUTED; catalog
metadata is OVERWRITE. -/
def is_preserved_model (f : String) : Bool :=
  f = "Comment" || f = "Stars" || f = "Must buy" || f = "Test result" ||
  f = "Installed folder" || f = "Alternative" || f = "Added manually"

/-- Modelled from the spec: the backend's designated empty-cell marker
(`gui_g.s.empty_cell`; the GUI settings value is not among the provided sources).  The
dataset view normalises missing values to the textual `'None'`
(`data.fillna('None')` in `EditableTable.load_data`). -/
def empty_cell_model : String := "None"

/-! ## Characterization of the merge loop -/

/-- The value a single merge-loop iteration leaves in its own column, as a pure
function of the registry, the stored row and the incoming cell. -/
def cellOut (P : String → Bool) (mark : String) (row : CsvRow) (f : String)
    (c : CellValue) : CellValue :=
  match lookupAssoc row f with
  | none => c
  | some v =>
    if v = mark then CellValue.str ""
    else
      let c1 := if f = "Origin" then
          match c with
          | CellValue.str s =>
            let fl := splitComma v
            CellValue.str (joinComma (if s ∈ fl then fl else fl ++ [s]))
          | _ => c
        else c
      if P f then (if str_is_bool v then CellValue.bool (str_to_bool v) else CellValue.str v)
      else c1

/-- `cellOut` lifted to the optional cell read `List.get?`. -/
def cellOutOpt (P : String → Bool) (mark : String) (row : CsvRow) (f : String) :
    Option CellValue → Option CellValue
  | none => none
  | some c => some (cellOut P mark row f c)

/-- The `(price_index, old_price)` bookkeeping of the merge loop, as a pure fold over
the field list. -/
def priceFold (row : CsvRow) (mark : String) : Nat → List String → Nat × Rat → Nat × Rat
  | _, [], acc => acc
  | i, f :: fs, acc =>
    priceFold row mark (i + 1) fs
      (if f = "Price" then
        match lookupAssoc row f with
        | some v => if v = mark then acc else (i, convert_to_float_str v)
        | none => acc
      else acc)

/-- The final value of column `k` of the merged record: the old-price capture overlays
the column after `price_index` when a price was captured at a positive position;
every other column is the loop's own output. -/
def finalCell (P : String → Bool) (mark : String) (row : CsvRow) (pr : Nat × Rat)
    (f : String) (k : Nat) (c? : Option CellValue) : Option CellValue :=
  if 0 < pr.1 ∧ k = pr.1 + 1 then some (CellValue.num pr.2)
  else cellOutOpt P mark row f c?

/-- A successful merge-loop iteration touches only its own column, whose new value is
`cellOut`; the price bookkeeping changes only on the `Price` column; and whenever the
iteration had to read or write its column (marker clearing, preservation, `Price`,
`Origin`), the incoming cell existed. -/
theorem mergeStep_spec (P : String → Bool) (mark : String) (row : CsvRow)
    (st : LoopSt) (i : Nat) (f : String) (st₁ : LoopSt)
    (h : mergeStep P mark row st i f = some st₁) :
    st₁.csvRecord.length = st.csvRecord.length ∧
    (∀ j, j ≠ i → st₁.csvRecord.get? j = st.csvRecord.get? j) ∧
    st₁.csvRecord.get? i = cellOutOpt P mark row f (st.csvRecord.get? i) ∧
    (st₁.priceIndex, st₁.oldPrice) =
      (if f = "Price" then
        match lookupAssoc row f with
        | some v => if v = mark then (st.priceIndex, st.oldPrice)
                    else (i, convert_to_float_str v)
        | none => (st.priceIndex, st.oldPrice)
      else (st.priceIndex, st.oldPrice)) ∧
    (∀ v, lookupAssoc row f = some v →
      (v = mark ∨ P f = true ∨ f = "Price" ∨ f = "Origin") →
      (st.csvRecord.get? i).isSome) := by
  unfold mergeStep at h
  split at h
  next hl =>
    simp only [Option.some.injEq] at h
    subst h
    refine ⟨rfl, fun j _ => rfl, ?_, by simp [hl], fun v hv _ => by simp [hl] at hv⟩
    cases hc : st.csvRecord.get? i <;> simp [cellOutOpt, cellOut, hl]
  next v hl =>
    split at h
    next hm =>
      subst hm
      split at h
      next hset => exact absurd h (by simp)
      next r hset =>
        simp only [Option.some.injEq] at h
        subst h
        simp only [pySet] at hset
        split at hset
        next hi =>
          simp only [Option.some.injEq] at hset
          subst hset
          simp only [List.get?_eq_getElem?, List.length_set]
          refine ⟨trivial, fun j hj => ?_, ?_, by simp [hl], fun _ _ _ => ?_⟩
          · rw [List.getElem?_set_ne (fun hh => hj hh.symm)]
          · rw [List.getElem?_set_eq_of_lt _ hi,
              List.getElem?_eq_getElem hi]
            simp [cellOutOpt, cellOut, hl]
          · rw [List.getElem?_eq_getElem hi]
            simp
        next => exact absurd hset (by simp)
    next hm =>
      split at h
      next heq => exact absurd h (by simp)
      next st1 heq =>
        -- analyse which branch produced `st1`
        split at heq
        next hf =>
          -- f = "Price"
          subst hf
          split at heq
          next => exact absurd heq (by simp)
          next c hc =>
            rw [List.get?_eq_getElem?] at hc
            simp only [Option.some.injEq] at heq
            subst heq
            split at h
            next hP =>
              split at h
              next => exact absurd h (by simp)
              next r hset =>
                simp only [Option.some.injEq] at h
                subst h
                simp only [pySet] at hset
                split at hset
                next hi =>
                  simp only [Option.some.injEq] at hset
                  subst hset
                  simp only [List.get?_eq_getElem?, List.length_set]
                  refine ⟨trivial, fun j hj => ?_, ?_, by simp [hl, hm], fun _ _ _ => by simp [hc]⟩
                  · rw [List.getElem?_set_ne (fun hh => hj hh.symm)]
                  · rw [List.getElem?_set_eq_of_lt _ hi]
                    simp [cellOutOpt, cellOut, hl, hm, hP, hc]
                next => exact absurd hset (by simp)
            next hP =>
              simp only [Option.some.injEq] at h
              subst h
              refine ⟨rfl, fun j _ => rfl, ?_, by simp [hl, hm], fun _ _ _ => by simp [hc]⟩
              simp only [List.get?_eq_getElem?, hc]
              simp [cellOutOpt, cellOut, hl, hm, hP]
        next hf =>
          split at heq
          next hf2 =>
            -- f = "Origin"
            subst hf2
            split at heq
            next => exact absurd heq (by simp)
            next s hc =>
              rw [List.get?_eq_getElem?] at hc
              split at heq
              next => exact absurd heq (by simp)
              next r hset =>
                simp only [Option.some.injEq] at heq
                subst heq
                simp only [pySet] at hset
                split at hset
                next hi =>
                  simp only [Option.some.injEq] at hset
                  subst hset
                  split at h
                  next hP =>
                    split at h
                    next => exact absurd h (by simp)
                    next r2 hset2 =>
                      simp only [Option.some.injEq] at h
                      subst h
                      simp only [pySet, List.length_set] at hset2
                      split at hset2
                      next hi2 =>
                        simp only [Option.some.injEq] at hset2
                        subst hset2
                        simp only [List.get?_eq_getElem?, List.length_set, List.set_set]
                        refine ⟨trivial, fun j hj => ?_, ?_, by simp [hl, hm],
                          fun _ _ _ => by simp [hc]⟩
                        · rw [List.getElem?_set_ne (fun hh => hj hh.symm)]
                        · rw [List.getElem?_set_eq_of_lt _ hi]
                          simp [cellOutOpt, cellOut, hl, hm, hP, hc]
                      next h2 => exact (h2 (by simpa using hi)).elim
                  next hP =>
                    simp only [Option.some.injEq] at h
                    subst h
                    simp only [List.get?_eq_getElem?, List.length_set]
                    refine ⟨trivial, fun j hj => ?_, ?_, by simp [hl, hm],
                      fun _ _ _ => by simp [hc]⟩
                    · rw [List.getElem?_set_ne (fun hh => hj hh.symm)]
                    · rw [List.getElem?_set_eq_of_lt _ hi]
                      simp [cellOutOpt, cellOut, hl, hm, hP, hc]
                next => exact absurd hset (by simp)
            next c hcs hc => exact absurd heq (by simp)
          next hf2 =>
            -- ordinary field: st1 = st
            simp only [Option.some.injEq] at heq
            subst heq
            split at h
            next hP =>
              split at h
              next => exact absurd h (by simp)
              next r hset =>
                simp only [Option.some.injEq] at h
                subst h
                simp only [pySet] at hset
                split at hset
                next hi =>
                  simp only [Option.some.injEq] at hset
                  subst hset
                  simp only [List.get?_eq_getElem?, List.length_set]
                  refine ⟨trivial, fun j hj => ?_, ?_, by simp [hf, hl, hm],
                    fun _ _ _ => by rw [List.getElem?_eq_getElem hi]; simp⟩
                  · rw [List.getElem?_set_ne (fun hh => hj hh.symm)]
                  · rw [List.getElem?_set_eq_of_lt _ hi, List.getElem?_eq_getElem hi]
                    simp [cellOutOpt, cellOut, hl, hm, hP, hf2]
                next => exact absurd hset (by simp)
            next hP =>
              simp only [Option.some.injEq] at h
              subst h
              refine ⟨rfl, fun j _ => rfl, ?_, by simp [hf, hl, hm], fun _ hv hd => ?_⟩
              · cases hc : st.csvRecord.get? i <;>
                  simp [cellOutOpt, cellOut, hl, hm, hP, hf2]
              · rw [hl] at hv
                cases hv
                rcases hd with hd | hd | hd | hd
                · exact absurd hd hm
                · exact absurd hd (by simp [hP])
                · exact absurd hd hf
                · exact absurd hd hf2



/-- A successful merge loop starting at column `i` leaves every column before `i` and
after its field list untouched, maps column `i + k` through `cellOut` of the `k`-th
field, computes the price bookkeeping as `priceFold`, and only reads columns that
exist. -/
theorem mergeLoop_spec (P : String → Bool) (mark : String) (row : CsvRow) :
    ∀ (fs : List String) (i : Nat) (st st' : LoopSt),
    mergeLoop P mark row i fs st = some st' →
    st'.csvRecord.length = st.csvRecord.length ∧
    (∀ j, j < i ∨ i + fs.length ≤ j → st'.csvRecord.get? j = st.csvRecord.get? j) ∧
    (∀ k f, fs.get? k = some f →
      st'.csvRecord.get? (i + k) = cellOutOpt P mark row f (st.csvRecord.get? (i + k))) ∧
    (st'.priceIndex, st'.oldPrice) = priceFold row mark i fs (st.priceIndex, st.oldPrice) ∧
    (∀ k f v, fs.get? k = some f → lookupAssoc row f = some v →
      (v = mark ∨ P f = true ∨ f = "Price" ∨ f = "Origin") →
      (st.csvRecord.get? (i + k)).isSome)
  | [], i, st, st', h => by
    simp only [mergeLoop, Option.some.injEq] at h
    subst h
    exact ⟨rfl, fun j _ => rfl, fun k f hk => by simp at hk, rfl,
      fun k f v hk _ _ => by simp at hk⟩
  | f :: fs, i, st, st', h => by
    simp only [mergeLoop] at h
    cases hstep : mergeStep P mark row st i f with
    | none => rw [hstep] at h; exact absurd h (by simp)
    | some st₁ =>
      rw [hstep] at h
      obtain ⟨slen, sout, sown, sprice, ssome⟩ :=
        mergeStep_spec P mark row st i f st₁ hstep
      obtain ⟨ilen, iout, iin, iprice, isome⟩ := mergeLoop_spec P mark row fs (i + 1) st₁ st' h
      refine ⟨ilen.trans slen, ?_, ?_, ?_, ?_⟩
      · intro j hj
        have h1 : st'.csvRecord.get? j = st₁.csvRecord.get? j := by
          refine iout j ?_
          rcases hj with hj | hj
          · exact Or.inl (by omega)
          · exact Or.inr (by simp at hj ⊢; omega)
        rw [h1]
        refine sout j ?_
        rcases hj with hj | hj
        · omega
        · simp at hj; omega
      · intro k g hk
        cases k with
        | zero =>
          simp only [List.get?_cons_zero, Option.some.injEq] at hk
          subst hk
          have h1 : st'.csvRecord.get? (i + 0) = st₁.csvRecord.get? i := by
            simpa using iout i (Or.inl (by omega))
          rw [h1, Nat.add_zero, sown]
        | succ k' =>
          simp only [List.get?_cons_succ] at hk
          have h1 := iin k' g hk
          have h2 : i + (k' + 1) = (i + 1) + k' := by omega
          rw [h2, h1, sout ((i + 1) + k') (by omega)]
      · rw [iprice, sprice]
        rfl
      · intro k g v hk hv hd
        cases k with
        | zero =>
          simp only [List.get?_cons_zero, Option.some.injEq] at hk
          subst hk
          simpa using ssome v hv hd
        | succ k' =>
          simp only [List.get?_cons_succ] at hk
          have h2 : i + (k' + 1) = (i + 1) + k' := by omega
          rw [h2, ← sout ((i + 1) + k') (by omega)]
          exact isome k' g v hk hv hd

/-- Characterization of a successful `update_and_merge_csv_record_data` when the asset
pre-exists with a well-formed row: no error is logged, the record keeps its length, and
every column is `finalCell` of the registry, the stored row and the incoming cell.  The
last clause records that every column the loop had to read or write exists in the
incoming record. -/
theorem update_and_merge_spec (fieldNames : List String) (P : String → Bool)
    (mark : String) (noData : Rat) (assetId : String) (assetData : List CellValue)
    (itemsInFile : List (String × CsvRow)) (out : MergeOutput) (row : CsvRow)
    (hsucc : update_and_merge_csv_record_data fieldNames P mark noData assetId assetData
      itemsInFile = some out)
    (hrow : lookupAssoc itemsInFile assetId = some row)
    (hne : row ≠ [])
    (hcount : row.length = fieldNames.length) :
    out.record.length = assetData.length ∧
    out.errors = [] ∧
    (∀ k f, fieldNames.get? k = some f →
      out.record.get? k =
        finalCell P mark row (priceFold row mark 0 fieldNames (0, noData)) f k
          (assetData.get? k)) ∧
    (∀ k f v, fieldNames.get? k = some f → lookupAssoc row f = some v →
      (v = mark ∨ P f = true ∨ f = "Price" ∨ f = "Origin") →
      (assetData.get? k).isSome) := by
  unfold update_and_merge_csv_record_data at hsucc
  rw [hrow] at hsucc
  split at hsucc
  next hemp => exact absurd hemp (by simp)
  next itemInFile hemp =>
    simp only [Option.some.injEq] at hemp
    subst hemp
    split at hsucc
    next hempty => exact absurd (List.isEmpty_iff.mp hempty) hne
    next hempty =>
      split at hsucc
      next hcnt => exact absurd hcount hcnt
      next hcnt =>
        split at hsucc
        next hloop2 => exact absurd hsucc (by simp)
        next st hloop =>
          obtain ⟨llen, lout, lin, lprice, lsome⟩ :=
            mergeLoop_spec P mark row fieldNames 0 ⟨assetData, 0, noData, noData, []⟩ st hloop
          have hpr : (st.priceIndex, st.oldPrice) =
              priceFold row mark 0 fieldNames (0, noData) := lprice
          split at hsucc
          next hpos =>
            split at hsucc
            next hset => exact absurd hsucc (by simp)
            next r hset =>
              simp only [Option.some.injEq] at hsucc
              subst hsucc
              simp only [pySet] at hset
              split at hset
              next hi =>
                simp only [Option.some.injEq] at hset
                subst hset
                refine ⟨by simp [llen], rfl, ?_, fun k f v hk => by simpa using lsome k f v hk⟩
                intro k f hk
                simp only [finalCell, ← hpr]
                by_cases hkp : k = st.priceIndex + 1
                · subst hkp
                  rw [if_pos ⟨hpos, rfl⟩]
                  simp only [List.get?_eq_getElem?]
                  rw [List.getElem?_set_eq_of_lt _ hi]
                · rw [if_neg (by intro hh; exact hkp hh.2)]
                  have h1 : (st.csvRecord.set (st.priceIndex + 1)
                      (CellValue.num st.oldPrice)).get? k = st.csvRecord.get? k := by
                    simp only [List.get?_eq_getElem?]
                    rw [List.getElem?_set_ne (fun hh => hkp hh.symm)]
                  rw [h1]
                  simpa using lin k f hk
              next => exact absurd hset (by simp)
          next hpos =>
            simp only [Option.some.injEq] at hsucc
            subst hsucc
            refine ⟨llen, rfl, ?_, fun k f v hk => by simpa using lsome k f v hk⟩
            intro k f hk
            simp only [finalCell, ← hpr]
            rw [if_neg (by intro hh; exact hpos hh.1)]
            simpa using lin k f hk

/-- On the modelled registry the price bookkeeping is determined by the stored `Price`
value alone: captured at column 15 unless the value is absent or the empty-cell
marker. -/
theorem priceFold_model (row : CsvRow) (mark : String) (noData : Rat) :
    priceFold row mark 0 csv_field_name_list_model (0, noData) =
      match lookupAssoc row "Price" with
      | none => (0, noData)
      | some v => if v = mark then (0, noData) else (15, convert_to_float_str v) := by
  cases hv : lookupAssoc row "Price" with
  | none => simp [priceFold, csv_field_name_list_model, hv]
  | some v =>
    by_cases hm : v = mark <;>
      simp [priceFold, csv_field_name_list_model, hv, hm]

/-! ## Split/join facts for the Origin union -/

theorem splitOnChar_ne_nil (sep : Char) : ∀ cs : List Char, splitOnChar sep cs ≠ []
  | [] => by simp [splitOnChar]
  | c :: rest => by
    simp only [splitOnChar]
    split
    · simp
    · cases h : splitOnChar sep rest <;> simp

/-- Splitting distributes over a separator placed between two character lists. -/
theorem splitOnChar_append (sep : Char) :
    ∀ as bs : List Char,
    splitOnChar sep (as ++ sep :: bs) = splitOnChar sep as ++ splitOnChar sep bs
  | [], bs => by simp [splitOnChar]
  | a :: as, bs => by
    rw [List.cons_append]
    simp only [splitOnChar]
    by_cases ha : a = sep
    · simp only [if_pos ha]
      rw [splitOnChar_append sep as bs]
      simp
    · simp only [if_neg ha]
      rw [splitOnChar_append sep as bs]
      cases h : splitOnChar sep as with
      | nil => exact absurd h (splitOnChar_ne_nil sep as)
      | cons g gs => simp

/-- A character list without the separator splits into the single group it is. -/
theorem splitOnChar_of_not_mem (sep : Char) :
    ∀ cs : List Char, sep ∉ cs → splitOnChar sep cs = [cs]
  | [], _ => rfl
  | c :: rest, h => by
    have hc : c ≠ sep := fun hh => h (hh ▸ List.mem_cons_self c rest)
    have hrest : sep ∉ rest := fun hh => h (List.mem_cons_of_mem c hh)
    simp only [splitOnChar, if_neg hc, splitOnChar_of_not_mem sep rest hrest]

/-- `sep.join(groups)` on character lists. -/
def joinSepChars (sep : Char) : List (List Char) → List Char
  | [] => []
  | [g] => g
  | g :: gs => g ++ sep :: joinSepChars sep gs

theorem joinSepChars_cons (sep : Char) (g : List Char) (gs : List (List Char))
    (h : gs ≠ []) : joinSepChars sep (g :: gs) = g ++ sep :: joinSepChars sep gs := by
  cases gs with
  | nil => exact absurd rfl h
  | cons g2 gs2 => rfl

/-- Joining the groups with the separator undoes the split. -/
theorem join_splitOnChar (sep : Char) :
    ∀ cs : List Char, joinSepChars sep (splitOnChar sep cs) = cs
  | [] => rfl
  | c :: rest => by
    have ih := join_splitOnChar sep rest
    simp only [splitOnChar]
    by_cases hc : c = sep
    · rw [if_pos hc,
        joinSepChars_cons sep [] (splitOnChar sep rest) (splitOnChar_ne_nil sep rest), ih, hc]
      rfl
    · rw [if_neg hc]
      cases h : splitOnChar sep rest with
      | nil => exact absurd h (splitOnChar_ne_nil sep rest)
      | cons g gs =>
        rw [h] at ih
        cases gs with
        | nil =>
          simp only [joinSepChars] at ih ⊢
          rw [ih]
        | cons g2 gs2 =>
          rw [joinSepChars_cons sep (c :: g) (g2 :: gs2) (by simp)]
          rw [joinSepChars_cons sep g (g2 :: gs2) (by simp)] at ih
          rw [List.cons_append, ih]

theorem splitComma_ne_nil (s : String) : splitComma s ≠ [] := by
  simp only [splitComma, splitCommaChars]
  intro h
  exact splitOnChar_ne_nil ',' s.data (List.map_eq_nil_iff.mp h)

theorem joinComma_data : ∀ l : List String,
    (joinComma l).data = joinSepChars ',' (l.map String.data)
  | [] => rfl
  | [s] => rfl
  | s :: s2 :: rest => by
    have ih := joinComma_data (s2 :: rest)
    show (s ++ "," ++ joinComma (s2 :: rest)).data = _
    rw [String.data_append, String.data_append, ih]
    rw [show (List.map String.data (s :: s2 :: rest)) =
      s.data :: List.map String.data (s2 :: rest) from rfl]
    rw [joinSepChars_cons ',' s.data (List.map String.data (s2 :: rest)) (by simp)]
    simp

/-- `','.join(value.split(','))` restores the value. -/
theorem joinComma_splitComma (s : String) : joinComma (splitComma s) = s := by
  refine String.ext ?_
  rw [joinComma_data]
  have h1 : (splitComma s).map String.data = splitCommaChars s.data := by
    simp only [splitComma, List.map_map]
    rw [show (String.data ∘ fun cs : List Char => String.mk cs) = id from rfl, List.map_id]
  rw [h1]
  exact join_splitOnChar ',' s.data

theorem splitComma_append (a b : String) :
    splitComma (a ++ "," ++ b) = splitComma a ++ splitComma b := by
  simp only [splitComma, splitCommaChars]
  rw [String.data_append, String.data_append]
  rw [show ("," : String).data = [','] from rfl, List.append_assoc, List.singleton_append,
    splitOnChar_append]
  simp

theorem splitComma_of_not_mem (s : String) (h : ',' ∉ s.data) : splitComma s = [s] := by
  simp only [splitComma, splitCommaChars]
  rw [splitOnChar_of_not_mem ',' s.data h]
  rfl

theorem joinComma_append_singleton : ∀ (l : List String) (s : String), l ≠ [] →
    joinComma (l ++ [s]) = joinComma l ++ "," ++ s
  | [], _, h => absurd rfl h
  | [x], s, _ => rfl
  | x :: y :: rest, s, _ => by
    show x ++ "," ++ joinComma ((y :: rest) ++ [s]) = (x ++ "," ++ joinComma (y :: rest)) ++ "," ++ s
    rw [joinComma_append_singleton (y :: rest) s (by simp)]
    simp [String.append_assoc]

/-- For every column other than the old-price column 16, the price-capture overlay of
the modelled registry is inert and the merged cell is the loop's own output. -/
theorem finalCell_model_ne_oldprice (P : String → Bool) (row : CsvRow) (mark : String)
    (noData : Rat) (f : String) (k : Nat) (c? : Option CellValue) (hk : k ≠ 16) :
    finalCell P mark row (priceFold row mark 0 csv_field_name_list_model (0, noData)) f k c? =
      cellOutOpt P mark row f c? := by
  rw [priceFold_model]
  cases hpv : lookupAssoc row "Price" with
  | none => simp [finalCell]
  | some pv =>
    by_cases hpm : pv = mark
    · simp [finalCell, hpm]
    · simp only [finalCell, if_neg hpm]
      rw [if_neg (by rintro ⟨-, hk16⟩; exact hk (by omega))]

/-! ## Claim theorems for the merge engine -/

/-- C1 — Preservation invariant of the merge: for every asset id present in both the
existing file data and the incoming batch, whose existing row has the expected CSV
field count, and for every field of PRESERVED provenance whose existing value is
present (not the designated empty-cell marker), the merged record's value for that
field equals the existing value: a textual boolean literal is coerced to a boolean and
any other value is kept in its stored (string) representation. -/
theorem C1_preserved_fields_keep_existing (assetId : String) (assetData : List CellValue)
    (itemsInFile : List (String × CsvRow)) (out : MergeOutput) (row : CsvRow)
    (k : Nat) (f : String) (v : String)
    (hsucc : update_and_merge_csv_record_data csv_field_name_list_model is_preserved_model
      empty_cell_model 0 assetId assetData itemsInFile = some out)
    (hrow : lookupAssoc itemsInFile assetId = some row)
    (hne : row ≠ [])
    (hcount : row.length = csv_field_name_list_model.length)
    (hf : csv_field_name_list_model.get? k = some f)
    (hP : is_preserved_model f = true)
    (hv : lookupAssoc row f = some v)
    (hm : v ≠ empty_cell_model) :
    out.record.get? k =
      some (if str_is_bool v then CellValue.bool (str_to_bool v) else CellValue.str v) := by
  obtain ⟨-, -, hcell, hsome⟩ :=
    update_and_merge_spec _ _ _ _ _ _ _ _ _ hsucc hrow hne hcount
  have hks := hsome k f v hf hv (Or.inr (Or.inl hP))
  obtain ⟨c, hc⟩ := Option.isSome_iff_exists.mp hks
  have h1 := hcell k f hf
  rw [hc] at h1
  have hk16 : k ≠ 16 := by
    intro hk
    subst hk
    rw [show csv_field_name_list_model.get? 16 = some "Old price" from rfl] at hf
    simp only [Option.some.injEq] at hf
    subst hf
    exact absurd hP (by decide)
  rw [h1, finalCell_model_ne_oldprice _ _ _ _ _ _ _ hk16]
  simp [cellOutOpt, cellOut, hv, hm, hP]

/-- A concrete incoming record (in registry order) used to witness the merge
theorems: the freshly scraped values for asset `A1`. -/
def sampleIncoming : List CellValue :=
  [.str "A1", .str "appA", .str "Title A", .str "cat", .num 5, .str "DevNew",
   .str "descN", .str "ACTIVE", .num 0, .num 0, .bool false,
   .bool true, .bool false, .str "4.27", .str "NO_ERROR", .num 8, .num 0,
   .str "", .num 0, .bool false, .str "", .str "", .str "",
   .str "folderY", .bool false]

/-- The matching stored CSV row for asset `A1` (as read back by `csv.DictReader`),
with user fields `Comment`/`Must buy` filled in, some user fields empty (`'None'`),
price `10.0` and origin `folderX`. -/
def sampleRow : CsvRow :=
  [("Asset_id", "A1"), ("App name", "appA"), ("App title", "Title A"), ("Category", "cat"),
   ("Review", "4"), ("Developer", "DevOld"), ("Description", "descO"), ("Status", "ACTIVE"),
   ("Discount price", "0.0"), ("Discount percentage", "0"), ("Discounted", "False"),
   ("Owned", "True"), ("Obsolete", "False"), ("Supported versions", "4.26"),
   ("Grab result", "NO_ERROR"), ("Price", "10.0"), ("Old price", "0.0"),
   ("Comment", "nice"), ("Stars", "None"), ("Must buy", "True"), ("Test result", "None"),
   ("Installed folder", "None"), ("Alternative", "None"),
   ("Origin", "folderX"), ("Added manually", "False")]

/-- The merge output on `sampleIncoming`/`sampleRow`: price history captured
(`Old price` = 10), preserved comment kept, origin union `folderX,folderY`,
marker cells cleared. -/
def sampleMerged : MergeOutput :=
  ⟨[.str "A1", .str "appA", .str "Title A", .str "cat", .num 5, .str "DevNew",
    .str "descN", .str "ACTIVE", .num 0, .num 0, .bool false,
    .bool true, .bool false, .str "4.27", .str "NO_ERROR", .num 8, .num 10,
    .str "nice", .str "", .bool true, .str "", .str "", .str "",
    .str "folderX,folderY", .bool false], [], []⟩

/-- Witness for C1 at a concrete input: merging `sampleIncoming` with `sampleRow`
succeeds and the PRESERVED field `Comment` (column 17) keeps the stored value
`"nice"`. -/
theorem C1_preserved_fields_keep_existing_witness :
    update_and_merge_csv_record_data csv_field_name_list_model is_preserved_model
      empty_cell_model 0 "A1" sampleIncoming [("A1", sampleRow)] = some sampleMerged ∧
    sampleMerged.record.get? 17 =
      some (if str_is_bool "nice" then CellValue.bool (str_to_bool "nice")
            else CellValue.str "nice") :=
  ⟨by decide,
   C1_preserved_fields_keep_existing "A1" sampleIncoming [("A1", sampleRow)] sampleMerged
     sampleRow 17 "Comment" "nice" (by decide) (by decide) (by decide) (by decide)
     (by decide) (by decide) (by decide) (by decide)⟩

/-- C2 (as amended) — Old-price capture: for an asset present in both inputs with a
well-formed existing row, *provided the existing row's `Price` value is present and is
not the designated empty-cell marker*, the merged record's `Old price` (column 16)
equals the numeric conversion of the existing `Price` value, and the merged `Price`
(column 15) comes from the incoming record, whether or not the price changed. -/
theorem C2_old_price_capture (assetId : String) (assetData : List CellValue)
    (itemsInFile : List (String × CsvRow)) (out : MergeOutput) (row : CsvRow) (pv : String)
    (hsucc : update_and_merge_csv_record_data csv_field_name_list_model is_preserved_model
      empty_cell_model 0 assetId assetData itemsInFile = some out)
    (hrow : lookupAssoc itemsInFile assetId = some row)
    (hne : row ≠ [])
    (hcount : row.length = csv_field_name_list_model.length)
    (hpv : lookupAssoc row "Price" = some pv)
    (hpm : pv ≠ empty_cell_model) :
    out.record.get? 16 = some (CellValue.num (convert_to_float_str pv)) ∧
    out.record.get? 15 = assetData.get? 15 := by
  obtain ⟨-, -, hcell, -⟩ :=
    update_and_merge_spec _ _ _ _ _ _ _ _ _ hsucc hrow hne hcount
  have h16 := hcell 16 "Old price" (by rfl)
  have h15 := hcell 15 "Price" (by rfl)
  have hpr : priceFold row empty_cell_model 0 csv_field_name_list_model (0, 0) =
      (15, convert_to_float_str pv) := by
    rw [priceFold_model, hpv]
    simp [hpm]
  rw [hpr] at h16 h15
  constructor
  · rw [h16]
    simp [finalCell]
  · rw [h15]
    simp only [finalCell]
    rw [if_neg (by simp)]
    cases hc : assetData.get? 15 <;>
      simp [cellOutOpt, cellOut, hpv, hpm, is_preserved_model]

/-- The most recent C2-shaped existing row: `Price` stored as the empty-cell marker
`'None'`, everything else as in `sampleRow`. -/
def priceMarkerRow : CsvRow :=
  [("Asset_id", "A1"), ("App name", "appA"), ("App title", "Title A"), ("Category", "cat"),
   ("Review", "4"), ("Developer", "DevOld"), ("Description", "descO"), ("Status", "ACTIVE"),
   ("Discount price", "0.0"), ("Discount percentage", "0"), ("Discounted", "False"),
   ("Owned", "True"), ("Obsolete", "False"), ("Supported versions", "4.26"),
   ("Grab result", "NO_ERROR"), ("Price", "None"), ("Old price", "0.0"),
   ("Comment", "nice"), ("Stars", "None"), ("Must buy", "True"), ("Test result", "None"),
   ("Installed folder", "None"), ("Alternative", "None"),
   ("Origin", "folderX"), ("Added manually", "False")]

/-- The incoming record whose `Old price` cell is `3`, used to exhibit the missing
price capture. -/
def oldPrice3Incoming : List CellValue :=
  [.str "A1", .str "appA", .str "Title A", .str "cat", .num 5, .str "DevNew",
   .str "descN", .str "ACTIVE", .num 0, .num 0, .bool false,
   .bool true, .bool false, .str "4.27", .str "NO_ERROR", .num 8, .num 3,
   .str "", .num 0, .bool false, .str "", .str "", .str "",
   .str "folderY", .bool false]

/-- Counterexample to C2 as stated: when the existing row's `Price` cell is the
empty-cell marker, no price history is captured — the merged `Old price` keeps the
incoming value (here `3`, not `numeric('None') = 0`) and the merged `Price` is cleared
to the empty string instead of taking the incoming price. -/
theorem C2_old_price_capture_counterexample :
    (update_and_merge_csv_record_data csv_field_name_list_model is_preserved_model
        empty_cell_model 0 "A1" oldPrice3Incoming [("A1", priceMarkerRow)]).map
      (fun o => (o.record.get? 16, o.record.get? 15)) =
      some (some (CellValue.num 3), some (CellValue.str "")) ∧
    ¬ ((some (CellValue.num 3) : Option CellValue) =
         some (CellValue.num (convert_to_float_str "None")) ∧
       (some (CellValue.str "") : Option CellValue) = oldPrice3Incoming.get? 15) := by
  exact ⟨by decide, by decide⟩

/-- Witness for C2 (amended) at a concrete input: with stored price `"10.0"` the
merged `Old price` is `10` and the merged `Price` is the incoming cell. -/
theorem C2_old_price_capture_witness :
    update_and_merge_csv_record_data csv_field_name_list_model is_preserved_model
      empty_cell_model 0 "A1" sampleIncoming [("A1", sampleRow)] = some sampleMerged ∧
    (sampleMerged.record.get? 16 = some (CellValue.num (convert_to_float_str "10.0")) ∧
     sampleMerged.record.get? 15 = sampleIncoming.get? 15) :=
  ⟨by decide,
   C2_old_price_capture "A1" sampleIncoming [("A1", sampleRow)] sampleMerged sampleRow
     "10.0" (by decide) (by decide) (by decide) (by decide) (by decide) (by decide)⟩

/-- C5 (as amended) — Overwrite rule: for an asset present in both inputs with a
well-formed existing row, and for every field of OVERWRITE or COMPUTED provenance
other than the special fields `Price`, `Origin` and `Old price` (the old-price slot is
overwritten by the price capture), the merged value equals the incoming value as-is,
*provided the existing value for the field is absent or differs from the designated
empty-cell marker* (a marker value clears the cell to the empty string instead). -/
theorem C5_overwrite_fields_take_incoming (assetId : String) (assetData : List CellValue)
    (itemsInFile : List (String × CsvRow)) (out : MergeOutput) (row : CsvRow)
    (k : Nat) (f : String)
    (hsucc : update_and_merge_csv_record_data csv_field_name_list_model is_preserved_model
      empty_cell_model 0 assetId assetData itemsInFile = some out)
    (hrow : lookupAssoc itemsInFile assetId = some row)
    (hne : row ≠ [])
    (hcount : row.length = csv_field_name_list_model.length)
    (hf : csv_field_name_list_model.get? k = some f)
    (hP : is_preserved_model f = false)
    (hfp : f ≠ "Price") (hfo : f ≠ "Origin") (hfold : f ≠ "Old price")
    (hv : lookupAssoc row f = none ∨
      ∃ v, lookupAssoc row f = some v ∧ v ≠ empty_cell_model) :
    out.record.get? k = assetData.get? k := by
  obtain ⟨-, -, hcell, -⟩ :=
    update_and_merge_spec _ _ _ _ _ _ _ _ _ hsucc hrow hne hcount
  have hk16 : k ≠ 16 := by
    intro hk
    subst hk
    rw [show csv_field_name_list_model.get? 16 = some "Old price" from rfl] at hf
    simp only [Option.some.injEq] at hf
    exact hfold hf.symm
  rw [hcell k f hf, finalCell_model_ne_oldprice _ _ _ _ _ _ _ hk16]
  rcases hv with hv | ⟨v, hv, hm⟩
  · cases hc : assetData.get? k <;> simp [cellOutOpt, cellOut, hv, hfo, hP]
  · cases hc : assetData.get? k <;>
      simp [cellOutOpt, cellOut, hv, hfo, hP, hm, Ne.symm hm]

/-- The existing row whose `Developer` cell is the empty-cell marker `'None'`. -/
def developerMarkerRow : CsvRow :=
  [("Asset_id", "A1"), ("App name", "appA"), ("App title", "Title A"), ("Category", "cat"),
   ("Review", "4"), ("Developer", "None"), ("Description", "descO"), ("Status", "ACTIVE"),
   ("Discount price", "0.0"), ("Discount percentage", "0"), ("Discounted", "False"),
   ("Owned", "True"), ("Obsolete", "False"), ("Supported versions", "4.26"),
   ("Grab result", "NO_ERROR"), ("Price", "10.0"), ("Old price", "0.0"),
   ("Comment", "nice"), ("Stars", "None"), ("Must buy", "True"), ("Test result", "None"),
   ("Installed folder", "None"), ("Alternative", "None"),
   ("Origin", "folderX"), ("Added manually", "False")]

/-- Counterexample to C5 as stated: `Developer` (column 5) is an OVERWRITE field and
not one of the special fields, yet when its existing value is the empty-cell marker
the merged value is the empty string, not the incoming `"DevNew"`. -/
theorem C5_overwrite_fields_take_incoming_counterexample :
    (update_and_merge_csv_record_data csv_field_name_list_model is_preserved_model
        empty_cell_model 0 "A1" sampleIncoming [("A1", developerMarkerRow)]).map
      (fun o => o.record.get? 5) = some (some (CellValue.str "")) ∧
    ¬ ((some (CellValue.str "") : Option CellValue) = sampleIncoming.get? 5) := by
  exact ⟨by decide, by decide⟩

/-- Witness for C5 (amended) at a concrete input: `Developer` stored as `"DevOld"`
(not the marker) is overwritten by the incoming `"DevNew"`. -/
theorem C5_overwrite_fields_take_incoming_witness :
    update_and_merge_csv_record_data csv_field_name_list_model is_preserved_model
      empty_cell_model 0 "A1" sampleIncoming [("A1", sampleRow)] = some sampleMerged ∧
    sampleMerged.record.get? 5 = sampleIncoming.get? 5 :=
  ⟨by decide,
   C5_overwrite_fields_take_incoming "A1" sampleIncoming [("A1", sampleRow)] sampleMerged
     sampleRow 5 "Developer" (by decide) (by decide) (by decide) (by decide) (by decide)
     (by decide) (by decide) (by decide) (by decide)
     (Or.inr ⟨"DevOld", by decide, by decide⟩)⟩

/-- C6 — Incoming-unchanged cases: the merged record equals the incoming record
unchanged (i) when the asset id is absent from the existing data (no error logged) and
(ii) when the existing row does not have the registry's field count, in which case an
error is additionally logged.  (A stored *empty* row is falsy in the source's
`if _items_in_file.get(_asset_id):` and behaves like an absent key; rows read back by
`csv.DictReader` are never empty, so the second case is stated for non-empty rows.) -/
theorem C6_incoming_unchanged_on_absent_or_malformed (assetId : String)
    (assetData : List CellValue) (itemsInFile : List (String × CsvRow)) :
    (lookupAssoc itemsInFile assetId = none →
      update_and_merge_csv_record_data csv_field_name_list_model is_preserved_model
        empty_cell_model 0 assetId assetData itemsInFile = some ⟨assetData, [], []⟩) ∧
    (∀ row, lookupAssoc itemsInFile assetId = some row → row ≠ [] →
      row.length ≠ csv_field_name_list_model.length →
      ∃ msgs, update_and_merge_csv_record_data csv_field_name_list_model is_preserved_model
          empty_cell_model 0 assetId assetData itemsInFile = some ⟨assetData, msgs, []⟩ ∧
        msgs ≠ []) := by
  constructor
  · intro h
    simp [update_and_merge_csv_record_data, h]
  · intro row hrow hne hcnt
    refine ⟨["asset " ++ assetId ++ " has not the same number of keys as the CSV headings"],
      ?_, by simp⟩
    have hemp : row.isEmpty = false := by
      cases row with
      | nil => exact absurd rfl hne
      | cons a l => rfl
    simp [update_and_merge_csv_record_data, hrow, hemp, hcnt]

/-- Witness for C6: a batch whose asset `B1` is absent from the file data returns the
incoming record unchanged, and a malformed one-column row for `A1` makes the merge
return the incoming record unchanged with an error logged. -/
theorem C6_incoming_unchanged_on_absent_or_malformed_witness :
    (lookupAssoc ([("A1", [("Asset_id", "A1")])] : List (String × CsvRow)) "B1" = none ∧
      update_and_merge_csv_record_data csv_field_name_list_model is_preserved_model
        empty_cell_model 0 "B1" sampleIncoming [("A1", [("Asset_id", "A1")])] =
        some ⟨sampleIncoming, [], []⟩) ∧
    ∃ msgs, update_and_merge_csv_record_data csv_field_name_list_model is_preserved_model
        empty_cell_model 0 "A1" sampleIncoming [("A1", [("Asset_id", "A1")])] =
        some ⟨sampleIncoming, msgs, []⟩ ∧ msgs ≠ [] :=
  ⟨⟨by decide,
    (C6_incoming_unchanged_on_absent_or_malformed "B1" sampleIncoming
      [("A1", [("Asset_id", "A1")])]).1 (by decide)⟩,
   (C6_incoming_unchanged_on_absent_or_malformed "A1" sampleIncoming
      [("A1", [("Asset_id", "A1")])]).2 [("Asset_id", "A1")] (by decide) (by decide)
      (by decide)⟩

/-- No group produced by splitting contains the separator. -/
theorem splitOnChar_sep_not_mem (sep : Char) :
    ∀ cs : List Char, ∀ g ∈ splitOnChar sep cs, sep ∉ g
  | [], g, hg => by
    simp only [splitOnChar, List.mem_singleton] at hg
    subst hg
    simp
  | c :: rest, g, hg => by
    simp only [splitOnChar] at hg
    by_cases hc : c = sep
    · rw [if_pos hc] at hg
      rcases List.mem_cons.mp hg with hg | hg
      · subst hg; simp
      · exact splitOnChar_sep_not_mem sep rest g hg
    · rw [if_neg hc] at hg
      cases h : splitOnChar sep rest with
      | nil => exact absurd h (splitOnChar_ne_nil sep rest)
      | cons g0 gs =>
        rw [h] at hg
        rcases List.mem_cons.mp hg with hg | hg
        · subst hg
          intro hmem
          rcases List.mem_cons.mp hmem with hmem | hmem
          · exact hc hmem.symm
          · exact splitOnChar_sep_not_mem sep rest g0 (h ▸ List.mem_cons_self g0 gs) hmem
        · exact splitOnChar_sep_not_mem sep rest g (h ▸ List.mem_cons_of_mem g0 hg)

/-- No token produced by `value.split(',')` contains a comma. -/
theorem splitComma_token_no_comma (x : String) :
    ∀ t ∈ splitComma x, ',' ∉ t.data := by
  intro t ht
  simp only [splitComma, List.mem_map] at ht
  obtain ⟨g, hg, rfl⟩ := ht
  exact splitOnChar_sep_not_mem ',' x.data g hg

/-- C3 (as amended) — Origin union: for an asset present in both inputs with a
well-formed existing row, when the existing `Origin` value is present (not the
empty-cell marker) and the incoming `Origin` cell (column 23) is a string `s`, the
merged `Origin` is the stored comma-separated folder list with `s` appended exactly
when `s` is not already one of its tokens.  Its token list therefore contains every
token of both sides; it is duplicate-free provided the stored tokens are distinct and
`s` is a single token (contains no comma) — with a multi-token or duplicated input,
duplicate tokens can remain. -/
theorem C3_origin_union (assetId : String) (assetData : List CellValue)
    (itemsInFile : List (String × CsvRow)) (out : MergeOutput) (row : CsvRow)
    (ov s : String)
    (hsucc : update_and_merge_csv_record_data csv_field_name_list_model is_preserved_model
      empty_cell_model 0 assetId assetData itemsInFile = some out)
    (hrow : lookupAssoc itemsInFile assetId = some row)
    (hne : row ≠ [])
    (hcount : row.length = csv_field_name_list_model.length)
    (hov : lookupAssoc row "Origin" = some ov)
    (hom : ov ≠ empty_cell_model)
    (hs : assetData.get? 23 = some (CellValue.str s)) :
    out.record.get? 23 = some (CellValue.str (joinComma
      (if s ∈ splitComma ov then splitComma ov else splitComma ov ++ [s]))) ∧
    splitComma (joinComma
        (if s ∈ splitComma ov then splitComma ov else splitComma ov ++ [s])) =
      (if s ∈ splitComma ov then splitComma ov else splitComma ov ++ splitComma s) ∧
    (∀ t, t ∈ splitComma ov → t ∈ splitComma (joinComma
      (if s ∈ splitComma ov then splitComma ov else splitComma ov ++ [s]))) ∧
    (∀ t, t ∈ splitComma s → t ∈ splitComma (joinComma
      (if s ∈ splitComma ov then splitComma ov else splitComma ov ++ [s]))) ∧
    ((splitComma ov).Nodup → ',' ∉ s.data → (splitComma (joinComma
      (if s ∈ splitComma ov then splitComma ov else splitComma ov ++ [s]))).Nodup) := by
  obtain ⟨-, -, hcell, -⟩ :=
    update_and_merge_spec _ _ _ _ _ _ _ _ _ hsucc hrow hne hcount
  have h23 := hcell 23 "Origin" (by rfl)
  rw [hs] at h23
  rw [finalCell_model_ne_oldprice _ _ _ _ _ _ _ (by omega)] at h23
  have hcellv : cellOutOpt is_preserved_model empty_cell_model row "Origin"
      (some (CellValue.str s)) = some (CellValue.str (joinComma
        (if s ∈ splitComma ov then splitComma ov else splitComma ov ++ [s]))) := by
    simp [cellOutOpt, cellOut, hov, hom, is_preserved_model]
  have htokens : splitComma (joinComma
      (if s ∈ splitComma ov then splitComma ov else splitComma ov ++ [s])) =
      (if s ∈ splitComma ov then splitComma ov else splitComma ov ++ splitComma s) := by
    by_cases hmem : s ∈ splitComma ov
    · rw [if_pos hmem, if_pos hmem, joinComma_splitComma]
    · rw [if_neg hmem, if_neg hmem,
        joinComma_append_singleton (splitComma ov) s (splitComma_ne_nil ov),
        joinComma_splitComma, splitComma_append]
  refine ⟨h23.trans hcellv, htokens, ?_, ?_, ?_⟩
  · intro t ht
    rw [htokens]
    by_cases hmem : s ∈ splitComma ov
    · rwa [if_pos hmem]
    · rw [if_neg hmem]
      exact List.mem_append_left _ ht
  · intro t ht
    rw [htokens]
    by_cases hmem : s ∈ splitComma ov
    · rw [if_pos hmem]
      have hcf : ',' ∉ s.data := splitComma_token_no_comma ov s hmem
      rw [splitComma_of_not_mem s hcf] at ht
      rcases List.mem_singleton.mp ht with rfl
      exact hmem
    · rw [if_neg hmem]
      exact List.mem_append_right _ ht
  · intro hnd hcf
    rw [htokens, splitComma_of_not_mem s hcf]
    by_cases hmem : s ∈ splitComma ov
    · rwa [if_pos hmem]
    · rw [if_neg hmem]
      exact List.Nodup.append hnd (List.nodup_singleton s)
        (by simpa [List.disjoint_singleton] using hmem)

/-- The existing row whose `Origin` is the single token `a`. -/
def originARow : CsvRow :=
  [("Asset_id", "A1"), ("App name", "appA"), ("App title", "Title A"), ("Category", "cat"),
   ("Review", "4"), ("Developer", "DevOld"), ("Description", "descO"), ("Status", "ACTIVE"),
   ("Discount price", "0.0"), ("Discount percentage", "0"), ("Discounted", "False"),
   ("Owned", "True"), ("Obsolete", "False"), ("Supported versions", "4.26"),
   ("Grab result", "NO_ERROR"), ("Price", "10.0"), ("Old price", "0.0"),
   ("Comment", "nice"), ("Stars", "None"), ("Must buy", "True"), ("Test result", "None"),
   ("Installed folder", "None"), ("Alternative", "None"),
   ("Origin", "a"), ("Added manually", "False")]

/-- The incoming record whose `Origin` cell is the two-token list `a,b`. -/
def originABIncoming : List CellValue :=
  [.str "A1", .str "appA", .str "Title A", .str "cat", .num 5, .str "DevNew",
   .str "descN", .str "ACTIVE", .num 0, .num 0, .bool false,
   .bool true, .bool false, .str "4.27", .str "NO_ERROR", .num 8, .num 0,
   .str "", .num 0, .bool false, .str "", .str "", .str "",
   .str "a,b", .bool false]

/-- Counterexample to C3 as stated: with stored origin `a` and incoming origin `a,b`
the merged `Origin` is `a,a,b`, whose token list `[a, a, b]` contains the duplicate
token `a` — the merged field is not a duplicate-free union. -/
theorem C3_origin_union_counterexample :
    (update_and_merge_csv_record_data csv_field_name_list_model is_preserved_model
        empty_cell_model 0 "A1" originABIncoming [("A1", originARow)]).map
      (fun o => o.record.get? 23) = some (some (CellValue.str "a,a,b")) ∧
    ¬ (splitComma "a,a,b").Nodup := by
  exact ⟨by decide, by decide⟩

/-- Witness for C3 (amended) at a concrete input: stored origin `folderX`, incoming
origin `folderY`; the merged origin is `folderX,folderY` whose tokens contain both
sides and are duplicate-free. -/
theorem C3_origin_union_witness :
    update_and_merge_csv_record_data csv_field_name_list_model is_preserved_model
      empty_cell_model 0 "A1" sampleIncoming [("A1", sampleRow)] = some sampleMerged ∧
    (sampleMerged.record.get? 23 = some (CellValue.str (joinComma
        (if "folderY" ∈ splitComma "folderX" then splitComma "folderX"
         else splitComma "folderX" ++ ["folderY"]))) ∧
      (splitComma (joinComma
        (if "folderY" ∈ splitComma "folderX" then splitComma "folderX"
         else splitComma "folderX" ++ ["folderY"]))).Nodup) := by
  have h := C3_origin_union "A1" sampleIncoming [("A1", sampleRow)] sampleMerged
    sampleRow "folderX" "folderY" (by decide) (by decide) (by decide) (by decide)
    (by decide) (by decide) (by decide)
  exact ⟨by decide, h.1, h.2.2.2.2 (by decide) (by decide)⟩

/-! ## Deduplication and tie-break of `list_assets` -/

/-- A scraped catalog item as consumed by the dedup pass of `list_assets`
(src/UEVaultManager/cli.py): its unique `app_name`, its `app_title`, and the
Windows asset info's `asset_id` when present. -/
structure CatalogItem where
  app_name : String
  app_title : String
  windows_asset_id : Option String
deriving Repr, DecidableEq

/-- The key used for `assets_to_output`: the Windows asset id when the item has
Windows asset infos, the `app_title` otherwise. -/
def itemAssetId (it : CatalogItem) : String :=
  match it.windows_asset_id with
  | some a => a
  | none => it.app_title

/-- `x.app_name.lower()`: the lowercased name as its character list (Python compares
strings by code points, i.e. lexicographically on the characters). -/
def lowerName (s : String) : List Char :=
  s.data.map Char.toLower

/-- The descending comparison used by
`sorted(items, key=lambda x: x.app_name.lower(), reverse=True)`. -/
def itemGE (a b : CatalogItem) : Prop :=
  lowerName b.app_name ≤ lowerName a.app_name

instance : DecidableRel itemGE := fun a b =>
  inferInstanceAs (Decidable (lowerName b.app_name ≤ lowerName a.app_name))

instance : IsTotal CatalogItem itemGE :=
  ⟨fun a b => (le_total (lowerName b.app_name) (lowerName a.app_name)).elim Or.inl Or.inr⟩

instance : IsTrans CatalogItem itemGE :=
  ⟨fun _ _ _ h1 h2 => le_trans h2 h1⟩

/-- `sorted(items, key=lambda x: x.app_name.lower(), reverse=True)`: a stable sort
into descending order of the lowercased name (insertion places each earlier item
before the later items of equal key, as Python's stable sort does). -/
def sortItemsDesc (items : List CatalogItem) : List CatalogItem :=
  List.insertionSort itemGE items

/-- The dedup loop of `list_assets`: walk the sorted batch and keep only the first
item encountered for each asset id (`if assets_to_output.get(asset_id): ... else:
assets_to_output[asset_id] = asset`); the association list records Python's dict
insertion order, and the stored item stands for the record
`create_asset_from_data` builds from it. -/
def dedupByAssetId : List CatalogItem → List (String × CatalogItem) →
    List (String × CatalogItem)
  | [], acc => acc
  | it :: rest, acc =>
    if (lookupAssoc acc (itemAssetId it)).isSome then dedupByAssetId rest acc
    else dedupByAssetId rest (acc ++ [(itemAssetId it, it)])

/-- The `assets_to_output` mapping built by `list_assets` from a scraped batch. -/
def assets_to_output (items : List CatalogItem) : List (String × CatalogItem) :=
  dedupByAssetId (sortItemsDesc items) []

theorem lookupAssoc_isSome_of_mem {α : Type} :
    ∀ (l : List (String × α)) (k : String) (v : α), (k, v) ∈ l →
    (lookupAssoc l k).isSome
  | [], _, _, h => absurd h (by simp)
  | (k2, v2) :: rest, k, v, h => by
    simp only [lookupAssoc]
    by_cases hk : k2 = k
    · simp [hk]
    · rw [if_neg hk]
      rcases List.mem_cons.mp h with h | h
      · exact absurd (congrArg Prod.fst h).symm hk
      · exact lookupAssoc_isSome_of_mem rest k v h

theorem lookupAssoc_append {α : Type} :
    ∀ (l1 l2 : List (String × α)) (k : String),
    lookupAssoc (l1 ++ l2) k =
      match lookupAssoc l1 k with
      | some v => some v
      | none => lookupAssoc l2 k
  | [], l2, k => rfl
  | (k1, v1) :: rest, l2, k => by
    rw [List.cons_append]
    simp only [lookupAssoc]
    by_cases hk : k1 = k
    · simp [hk]
    · rw [if_neg hk, lookupAssoc_append rest l2 k, if_neg hk]

theorem lookupAssoc_eq_none_iff {α : Type} :
    ∀ (l : List (String × α)) (k : String),
    lookupAssoc l k = none ↔ k ∉ l.map Prod.fst
  | [], k => by simp [lookupAssoc]
  | (k1, v1) :: rest, k => by
    simp only [lookupAssoc, List.map_cons, List.mem_cons]
    by_cases hk : k1 = k
    · simp [hk]
    · rw [if_neg hk]
      rw [lookupAssoc_eq_none_iff rest k]
      simp [Ne.symm hk]

/-- Once a key is present in the accumulator, the dedup loop never rebinds it: every
entry of the result with that key was already in the accumulator. -/
theorem dedup_mem_of_lookup_isSome :
    ∀ (l : List CatalogItem) (acc : List (String × CatalogItem)) (k : String)
      (it : CatalogItem),
    (lookupAssoc acc k).isSome → (k, it) ∈ dedupByAssetId l acc → (k, it) ∈ acc
  | [], acc, k, it, _, hmem => hmem
  | y :: rest, acc, k, it, hsome, hmem => by
    simp only [dedupByAssetId] at hmem
    split at hmem
    next => exact dedup_mem_of_lookup_isSome rest acc k it hsome hmem
    next hns =>
      have hsome2 : (lookupAssoc (acc ++ [(itemAssetId y, y)]) k).isSome := by
        rw [lookupAssoc_append]
        obtain ⟨v, hv⟩ := Option.isSome_iff_exists.mp hsome
        simp [hv]
      have h2 := dedup_mem_of_lookup_isSome rest _ k it hsome2 hmem
      rcases List.mem_append.mp h2 with h2 | h2
      · exact h2
      · exfalso
        have hk : k = itemAssetId y := congrArg Prod.fst (List.mem_singleton.mp h2)
        rw [hk] at hsome
        exact hns hsome

/-- The keys of the dedup result are distinct. -/
theorem dedup_keys_nodup :
    ∀ (l : List CatalogItem) (acc : List (String × CatalogItem)),
    (acc.map Prod.fst).Nodup → ((dedupByAssetId l acc).map Prod.fst).Nodup
  | [], acc, h => h
  | y :: rest, acc, h => by
    simp only [dedupByAssetId]
    split
    · exact dedup_keys_nodup rest acc h
    next hns =>
      refine dedup_keys_nodup rest _ ?_
      rw [List.map_append]
      simp only [List.map_cons, List.map_nil]
      refine List.Nodup.append h (List.nodup_singleton _) ?_
      intro x hx hx2
      rcases List.mem_singleton.mp hx2 with rfl
      refine hns ?_
      rw [Option.isSome_iff_ne_none]
      intro hnone
      exact (lookupAssoc_eq_none_iff acc (itemAssetId y)).mp hnone hx

/-- An entry of the dedup result whose key was not yet bound comes from the first
element of the walked list carrying that asset id. -/
theorem dedup_first_occurrence :
    ∀ (l : List CatalogItem) (acc : List (String × CatalogItem)) (k : String)
      (it : CatalogItem),
    (k, it) ∈ dedupByAssetId l acc → lookupAssoc acc k = none →
    itemAssetId it = k ∧
      ∃ l1 l2, l = l1 ++ it :: l2 ∧ ∀ x ∈ l1, itemAssetId x ≠ k
  | [], acc, k, it, hmem, hnone => by
    have := lookupAssoc_isSome_of_mem acc k it hmem
    rw [hnone] at this
    exact absurd this (by simp)
  | y :: rest, acc, k, it, hmem, hnone => by
    simp only [dedupByAssetId] at hmem
    split at hmem
    next hsk =>
      have hky : itemAssetId y ≠ k := by
        intro hk
        rw [hk, hnone] at hsk
        exact absurd hsk (by simp)
      obtain ⟨hid, l1, l2, hsplit, hl1⟩ := dedup_first_occurrence rest acc k it hmem hnone
      exact ⟨hid, y :: l1, l2, by rw [hsplit, List.cons_append],
        fun x hx => (List.mem_cons.mp hx).elim (fun hxy => hxy ▸ hky) (hl1 x)⟩
    next hsk =>
      by_cases hky : itemAssetId y = k
      · have hsome2 : (lookupAssoc (acc ++ [(itemAssetId y, y)]) k).isSome := by
          rw [lookupAssoc_append, hnone, hky]
          simp [lookupAssoc]
        have h2 := dedup_mem_of_lookup_isSome rest _ k it hsome2 hmem
        rcases List.mem_append.mp h2 with h2 | h2
        · have := lookupAssoc_isSome_of_mem acc k it h2
          rw [hnone] at this
          exact absurd this (by simp)
        · have h3 := List.mem_singleton.mp h2
          have hit : it = y := congrArg Prod.snd h3
          subst hit
          exact ⟨hky, [], rest, rfl, by simp⟩
      · have hnone2 : lookupAssoc (acc ++ [(itemAssetId y, y)]) k = none := by
          rw [lookupAssoc_append, hnone]
          show lookupAssoc [(itemAssetId y, y)] k = none
          simp [lookupAssoc, hky]
        obtain ⟨hid, l1, l2, hsplit, hl1⟩ := dedup_first_occurrence rest _ k it hmem hnone2
        exact ⟨hid, y :: l1, l2, by rw [hsplit, List.cons_append],
          fun x hx => (List.mem_cons.mp hx).elim (fun hxy => hxy ▸ hky) (hl1 x)⟩

/-- C7 — Deduplication and tie-break of `list_assets`: the output mapping binds each
asset id at most once, and every retained entry is built from an item of the batch
with that asset id whose lowercased `app_name` is lexicographically greatest among all
batch items sharing the id (the batch is sorted by lowercased name descending and only
the first item per asset id is kept). -/
theorem C7_dedup_and_tiebreak (items : List CatalogItem) :
    ((assets_to_output items).map Prod.fst).Nodup ∧
    (∀ k it, (k, it) ∈ assets_to_output items →
      itemAssetId it = k ∧ it ∈ items ∧
      ∀ it2 ∈ items, itemAssetId it2 = k →
        lowerName it2.app_name ≤ lowerName it.app_name) := by
  have hperm : List.Perm (sortItemsDesc items) items := List.perm_insertionSort itemGE items
  have hsorted : List.Sorted itemGE (sortItemsDesc items) :=
    List.sorted_insertionSort itemGE items
  refine ⟨dedup_keys_nodup _ [] (by simp), ?_⟩
  intro k it hmem
  obtain ⟨hid, l1, l2, hsplit, hl1⟩ :=
    dedup_first_occurrence (sortItemsDesc items) [] k it hmem rfl
  have hitmem : it ∈ sortItemsDesc items := by
    rw [hsplit]
    exact List.mem_append_right l1 (List.mem_cons_self it l2)
  refine ⟨hid, hperm.subset hitmem, ?_⟩
  intro it2 hit2 hid2
  have hit2s : it2 ∈ sortItemsDesc items := hperm.symm.subset hit2
  rw [hsplit] at hit2s
  rcases List.mem_append.mp hit2s with h | h
  · exact absurd hid2 (hl1 it2 h)
  · rcases List.mem_cons.mp h with h | h
    · subst h
      exact le_refl _
    · rw [hsplit] at hsorted
      have hpair := (List.pairwise_append.mp hsorted).2.1
      exact (List.pairwise_cons.mp hpair).1 it2 h

/-- A concrete scraped batch: two engine-version variants of the same asset id `X`
and one item without Windows asset infos. -/
def sampleBatch : List CatalogItem :=
  [⟨"Pack_4.26", "Pack", some "X"⟩, ⟨"Pack_4.27", "Pack", some "X"⟩,
   ⟨"Other_1.0", "Other", none⟩]

/-- Witness for C7: on `sampleBatch` the output keys are distinct, asset id `X` is
bound to the `Pack_4.27` variant, and its lowercased name dominates every batch item
with asset id `X`. -/
theorem C7_dedup_and_tiebreak_witness :
    ((assets_to_output sampleBatch).map Prod.fst).Nodup ∧
    ("X", (⟨"Pack_4.27", "Pack", some "X"⟩ : CatalogItem)) ∈ assets_to_output sampleBatch ∧
    ∀ it2 ∈ sampleBatch, itemAssetId it2 = "X" →
      lowerName it2.app_name ≤
        lowerName (⟨"Pack_4.27", "Pack", some "X"⟩ : CatalogItem).app_name :=
  ⟨(C7_dedup_and_tiebreak sampleBatch).1,
   by decide,
   fun it2 h2 hid =>
     ((C7_dedup_and_tiebreak sampleBatch).2 "X" ⟨"Pack_4.27", "Pack", some "X"⟩
       (by decide)).2.2 it2 h2 hid⟩

/-! ## Pagination of the Dataset View (`EditableTable`) -/

/-- The pagination-relevant state of an `EditableTable`
(src/UEVaultManager/tkgui/modules/cls/EditableTableClass.py).  Rows are abstracted to
their payloads; Python integers are `Int` (`//` is `Int.fdiv`). -/
structure EditableTable where
  data : List Int
  filtered : List Int
  rows_per_page : Int
  current_page : Int
  total_pages : Int
  pagination_enabled : Bool
  model_df : List Int
  row_count : Int
  row_filtered_count : Int
deriving Repr, DecidableEq

/-- The class-attribute initial state: `current_page = 1`, `total_pages = 1`,
`pagination_enabled = True`, empty data. -/
def initialTable (rowsPerPage : Int) : EditableTable :=
  ⟨[], [], rowsPerPage, 1, 1, true, [], 0, 0⟩

/-- `df.iloc[a:b]`: pandas positional slicing clamps out-of-range bounds and never
raises `IndexError`, so the `except IndexError` handler of `update_page` is
unreachable.  (Negative positions do not occur here: `current_page ≥ 1` keeps the
start non-negative.) -/
def ilocSlice {α : Type} (l : List α) (a b : Int) : List α :=
  (l.take b.toNat).drop a.toNat

/-- Python's boolean-mask selection `data[mask]`. -/
def applyMask {α : Type} : List α → List Bool → List α
  | [], _ => []
  | _ :: _, [] => []
  | x :: xs, b :: bs => if b then x :: applyMask xs bs else applyMask xs bs

/-- `EditableTable.update_page`: recomputes `total_pages` from the filtered count and
slices the current page into `model_df`; `current_page` is *not* clamped (the
`except IndexError` branch never runs, see `ilocSlice`).  With pagination disabled
the whole filtered set is shown and both page counters reset to 1. -/
def update_page (t : EditableTable) : EditableTable :=
  if t.pagination_enabled then
    { t with
      total_pages := ((t.filtered.length : Int) - 1).fdiv t.rows_per_page + 1,
      model_df := ilocSlice t.filtered ((t.current_page - 1) * t.rows_per_page)
        ((t.current_page - 1) * t.rows_per_page + t.rows_per_page) }
  else
    { t with model_df := t.filtered, current_page := 1, total_pages := 1 }

/-- `EditableTable.update`: optionally resets to page 1, recomputes the filtered rows
from the filter frame's mask (`None` = no filter), updates the row counters and calls
`update_page`. -/
def update (t : EditableTable) (reset_page : Bool) (mask : Option (List Bool)) :
    EditableTable :=
  let t1 := if reset_page then { t with current_page := 1 } else t
  let filtered := match mask with
    | some m => applyMask t1.data m
    | none => t1.data
  update_page { t1 with filtered := filtered, row_count := t1.data.length,
                        row_filtered_count := filtered.length }

/-- `EditableTable.next_page`. -/
def next_page (t : EditableTable) (mask : Option (List Bool)) : EditableTable :=
  if t.current_page < t.total_pages then
    update { t with current_page := t.current_page + 1 } false mask
  else t

/-- `EditableTable.prev_page`. -/
def prev_page (t : EditableTable) (mask : Option (List Bool)) : EditableTable :=
  if t.current_page > 1 then
    update { t with current_page := t.current_page - 1 } false mask
  else t

/-- `EditableTable.first_page`. -/
def first_page (t : EditableTable) (mask : Option (List Bool)) : EditableTable :=
  update { t with current_page := 1 } false mask

/-- `EditableTable.last_page`. -/
def last_page (t : EditableTable) (mask : Option (List Bool)) : EditableTable :=
  update { t with current_page := t.total_pages } false mask

/-- `EditableTable.load_data`, restricted to its pagination effect: the new data is
installed; if it is empty the method logs an error and returns `False` before the
recomputation, leaving `total_pages` untouched; otherwise
`total_pages = (len(data) - 1) // rows_per_page + 1`.  `current_page` and the
filtered set are never touched. -/
def load_data (t : EditableTable) (newData : List Int) : EditableTable :=
  if newData.length ≤ 0 then { t with data := newData }
  else { t with data := newData,
                total_pages := ((newData.length : Int) - 1).fdiv t.rows_per_page + 1 }

/-- The ceiling division the spec's pagination bound refers to
(`total_pages == ceil(n / page_size)`). -/
def ceilDiv (n m : Nat) : Nat := (n + m - 1) / m

/-- The code's `(n - 1) // rows_per_page + 1` (Python floor division) equals
`ceil(n / rows_per_page)` for every positive page size — including `n = 0`, where
both are 0. -/
theorem fdiv_pred_add_one (n : Nat) (m : Int) (hm : 0 < m) :
    ((n : Int) - 1).fdiv m + 1 = (ceilDiv n m.toNat : Int) := by
  obtain ⟨k, rfl⟩ : ∃ k : Nat, m = ((k + 1 : Nat) : Int) := by
    refine ⟨(m.toNat - 1), ?_⟩
    omega
  cases n with
  | zero =>
    have h0 : ((0 : Nat) : Int) - 1 = Int.negSucc 0 := by decide
    have h2 : Int.fdiv (Int.negSucc 0) ((k + 1 : Nat) : Int) = -1 := by
      show Int.fdiv (Int.negSucc 0) (Int.ofNat (k + 1)) = -1
      show Int.negSucc (0 / (k + 1)) = -1
      rw [Nat.zero_div]
      rfl
    rw [h0, h2]
    have h3 : ceilDiv 0 (((k + 1 : Nat) : Int)).toNat = 0 := by
      simp only [Int.toNat_natCast, ceilDiv]
      rw [show 0 + (k + 1) - 1 = k from by omega]
      exact Nat.div_eq_of_lt (by omega)
    rw [h3]
    simp
  | succ j =>
    have h1 : ((j + 1 : Nat) : Int) - 1 = (j : Int) := by push_cast; ring
    rw [h1, ← Int.ofNat_fdiv]
    have h2 : ceilDiv (j + 1) (((k + 1 : Nat) : Int)).toNat = j / (k + 1) + 1 := by
      simp only [Int.toNat_natCast, ceilDiv]
      rw [show j + 1 + (k + 1) - 1 = j + (k + 1) from by omega,
        Nat.add_div_right _ (by omega)]
    rw [h2]
    push_cast
    ring

/-- C8 (as amended) — Pagination bounds: with pagination enabled and a positive page
size, `update_page` (and hence `update` and the four navigation methods, which
delegate to it) always recomputes `total_pages = ceil(n / rows_per_page)` for the
filtered count `n` — where `ceil(0 / rows_per_page) = 0`, matching the code's
`(0 - 1) // rows_per_page + 1 = 0` — and `load_data` recomputes it the same way
from the loaded count when the data is nonempty, returning early with `total_pages`
untouched on empty data.  But no operation clamps `current_page`, which is left
exactly as it was (or reset to 1 when `update` is called with a page reset), so
`current_page ∈ [1, total_pages]` holds after them only when it already held for the
new page count.  In particular the bound can be violated after a filter shrinks the
row count, and is violated at `n = 0` where `total_pages = 0 < current_page`. -/
theorem C8_pagination_bounds (t : EditableTable) (mask : Option (List Bool))
    (reset_page : Bool) (newData : List Int)
    (hen : t.pagination_enabled = true) (hrpp : 0 < t.rows_per_page) :
    ((update_page t).total_pages =
        (ceilDiv t.filtered.length t.rows_per_page.toNat : Int) ∧
      (update_page t).current_page = t.current_page ∧
      (1 ≤ t.current_page →
        t.current_page ≤ (ceilDiv t.filtered.length t.rows_per_page.toNat : Int) →
        1 ≤ (update_page t).current_page ∧
          (update_page t).current_page ≤ (update_page t).total_pages)) ∧
    ((update t reset_page mask).total_pages =
        (ceilDiv (update t reset_page mask).filtered.length t.rows_per_page.toNat : Int) ∧
      (update t reset_page mask).current_page =
        (if reset_page then 1 else t.current_page)) ∧
    ((newData ≠ [] →
        (load_data t newData).total_pages =
          (ceilDiv newData.length t.rows_per_page.toNat : Int)) ∧
      (newData = [] → (load_data t newData).total_pages = t.total_pages) ∧
      (load_data t newData).current_page = t.current_page) := by
  have hup : ∀ s : EditableTable, s.pagination_enabled = true → 0 < s.rows_per_page →
      (update_page s).total_pages =
        (ceilDiv s.filtered.length s.rows_per_page.toNat : Int) ∧
      (update_page s).current_page = s.current_page ∧
      (update_page s).filtered = s.filtered := by
    intro s hs hr
    unfold update_page
    rw [if_pos hs]
    exact ⟨fdiv_pred_add_one s.filtered.length s.rows_per_page hr, rfl, rfl⟩
  obtain ⟨h1, h2, h3⟩ := hup t hen hrpp
  refine ⟨⟨h1, h2, ?_⟩, ?_, ?_, ?_, ?_⟩
  · intro hlo hhi
    rw [h1, h2]
    exact ⟨hlo, hhi⟩
  · unfold update
    set t1 := if reset_page then { t with current_page := 1 } else t with ht1
    have ht1en : t1.pagination_enabled = true := by
      rw [ht1]; split <;> exact hen
    have ht1rpp : t1.rows_per_page = t.rows_per_page := by
      rw [ht1]; split <;> rfl
    set filtered := (match mask with
      | some m => applyMask t1.data m
      | none => t1.data) with hfil
    obtain ⟨g1, g2, g3⟩ :=
      hup
        { t1 with
          filtered := filtered
          row_count := t1.data.length
          row_filtered_count := filtered.length }
        ht1en (ht1rpp ▸ hrpp)
    refine ⟨?_, ?_⟩
    · rw [g1, g3]
      simp only [ht1rpp]
    · rw [g2]
      rw [ht1]
      split <;> rfl
  · intro hne
    have hpos : 0 < newData.length := List.length_pos.mpr hne
    unfold load_data
    rw [if_neg (by omega)]
    exact fdiv_pred_add_one newData.length t.rows_per_page hrpp
  · intro h
    subst h
    rfl
  · unfold load_data
    split <;> rfl

/-- A reachable state violating the pagination bound: load two rows with one row per
page, go to page 2, then apply a filter keeping a single row. -/
def pageCexTable : EditableTable :=
  update (next_page (update (load_data (initialTable 1) [10, 20]) false none) none)
    false (some [true, false])

/-- Counterexample to C8 as stated: after the filter operation the view has
`total_pages = 1` (which is `ceil(1/1)`) but `current_page = 2`, outside
`[1, total_pages]` — `update`/`update_page` never clamp the current page (the
`except IndexError` handler is unreachable because pandas slicing clamps). -/
theorem C8_pagination_bounds_counterexample :
    pageCexTable.pagination_enabled = true ∧ (0 : Int) < pageCexTable.rows_per_page ∧
    pageCexTable.row_filtered_count = 1 ∧
    pageCexTable.total_pages = 1 ∧ pageCexTable.current_page = 2 ∧
    ¬ (1 ≤ pageCexTable.current_page ∧
        pageCexTable.current_page ≤ pageCexTable.total_pages) := by
  decide

/-- A state satisfying the amended bound: two rows, one per page, no filter,
current page 1. -/
def pageOkTable : EditableTable :=
  update (load_data (initialTable 1) [10, 20]) false none

/-- Witness for C8 (amended) at a concrete state: `update_page` recomputes
`total_pages = ceil(2/1) = 2` and the in-range current page 1 stays in range. -/
theorem C8_pagination_bounds_witness :
    (update_page pageOkTable).total_pages =
      (ceilDiv pageOkTable.filtered.length pageOkTable.rows_per_page.toNat : Int) ∧
    (1 ≤ (update_page pageOkTable).current_page ∧
      (update_page pageOkTable).current_page ≤ (update_page pageOkTable).total_pages) :=
  ⟨((C8_pagination_bounds pageOkTable none false [10, 20] (by decide) (by decide)).1).1,
   ((C8_pagination_bounds pageOkTable none false [10, 20] (by decide) (by decide)).1).2.2
     (by decide) (by decide)⟩

/-! ## Saving and dirty/delete tracking (`EditableTable.save_data`) -/

/-- The two data sources of the table (`DataSourceType.FILE` / `DataSourceType.SQLITE`). -/
inductive DataSource where
  | file
  | sqlite
deriving Repr, DecidableEq

/-- The dirty/delete bookkeeping touched by `save_data`:
`_changed_rows`, `_deleted_asset_ids` and `must_save`. -/
structure SaveTracking where
  changed_rows : List Int
  deleted_asset_ids : List String
  must_save : Bool
deriving Repr, DecidableEq

/-- Modelled from the spec: the storage side of a save.  `data.to_csv` either
succeeds or raises (`StorageWriteError`: disk full, lock, permission);
`get_row` may return `None` for a row (then the row is skipped); the relational
backend (`UEAssetDbHandler`, not among the provided sources) either saves a row /
deletes a key or raises one of the per-row errors the source catches. -/
structure SaveBackend where
  csvWriteOk : Bool
  rowHasData : Int → Bool
  rowSaveOk : Int → Bool
  deleteOk : String → Bool

/-- The per-row loop of the SQLITE branch of `save_data`: each changed row with data
is saved; a per-row failure is caught, logged as a warning, and the loop *continues*
with the remaining rows.  Returns (saved rows, failed rows) in row order. -/
def saveRowsSqlite (b : SaveBackend) : List Int → List Int × List Int
  | [] => ([], [])
  | r :: rest =>
    let acc := saveRowsSqlite b rest
    if b.rowHasData r then
      if b.rowSaveOk r then (r :: acc.1, acc.2)
      else (acc.1, r :: acc.2)
    else acc

/-- The delete loop of the SQLITE branch: failures are caught and logged.  Returns
the asset ids whose deletion failed. -/
def deleteKeysSqlite (b : SaveBackend) : List String → List String
  | [] => []
  | a :: rest =>
    if b.deleteOk a then deleteKeysSqlite b rest
    else a :: deleteKeysSqlite b rest

/-- The outcome of one `save_data` call: whether the call ran to completion (no
uncaught exception), the tracking state afterwards, and which rows/keys were saved or
reported as failed. -/
structure SaveOutcome where
  completed : Bool
  tracking : SaveTracking
  savedRows : List Int
  failedRows : List Int
  failedDeletes : List String
deriving Repr, DecidableEq

/-- `EditableTable.save_data`
(src/UEVaultManager/tkgui/modules/cls/EditableTableClass.py):

* FILE: `data.to_csv(...)` is not wrapped in a handler, so a write failure
  propagates before `clear_rows_to_save` / `clear_asset_ids_to_delete` /
  `must_save = False` run — the tracking state is left untouched;
* SQLITE: each changed row and each deletion is attempted, per-row failures are
  caught and logged as warnings, and the clearing code at the end runs
  unconditionally. -/
def save_data (st : SaveTracking) (src : DataSource) (b : SaveBackend) : SaveOutcome :=
  match src with
  | .file =>
    if b.csvWriteOk then
      ⟨true, ⟨[], [], false⟩, [], [], []⟩
    else
      ⟨false, st, [], [], []⟩
  | .sqlite =>
    ⟨true, ⟨[], [], false⟩,
      (saveRowsSqlite b st.changed_rows).1,
      (saveRowsSqlite b st.changed_rows).2,
      deleteKeysSqlite b st.deleted_asset_ids⟩

theorem saveRowsSqlite_mem (b : SaveBackend) :
    ∀ (rows : List Int) (r : Int), r ∈ rows → b.rowHasData r = true →
    (b.rowSaveOk r = true → r ∈ (saveRowsSqlite b rows).1) ∧
    (b.rowSaveOk r = false → r ∈ (saveRowsSqlite b rows).2)
  | [], r, hr, _ => absurd hr (by simp)
  | x :: rest, r, hr, hdata => by
    simp only [saveRowsSqlite]
    rcases List.mem_cons.mp hr with hr | hr
    · subst hr
      rw [hdata]
      constructor
      · intro hok; rw [hok]; simp
      · intro hok; rw [hok]; simp
    · have ih := saveRowsSqlite_mem b rest r hr hdata
      constructor
      · intro hok
        have h1 := ih.1 hok
        split
        · split <;> simp [h1]
        · exact h1
      · intro hok
        have h1 := ih.2 hok
        split
        · split <;> simp [h1]
        · exact h1

/-- C9 — Save clearing semantics: `save_data` clears the dirty-row set, the delete
set and the unsaved flag exactly when the call completes.  A flat-file write failure
(`StorageWriteError` from `to_csv`) aborts before the clearing code, leaving both
sets untouched.  On the relational backend the call always completes: every changed
row with data is attempted — a per-row failure is reported in the failed keys while
the remaining rows are still processed — and the tracking sets are cleared. -/
theorem C9_save_clearing (st : SaveTracking) (b : SaveBackend) :
    (b.csvWriteOk = true →
      (save_data st .file b).completed = true ∧
      (save_data st .file b).tracking = ⟨[], [], false⟩) ∧
    (b.csvWriteOk = false →
      (save_data st .file b).completed = false ∧
      (save_data st .file b).tracking = st) ∧
    ((save_data st .sqlite b).completed = true ∧
      (save_data st .sqlite b).tracking = ⟨[], [], false⟩ ∧
      (∀ r ∈ st.changed_rows, b.rowHasData r = true →
        (b.rowSaveOk r = true → r ∈ (save_data st .sqlite b).savedRows) ∧
        (b.rowSaveOk r = false → r ∈ (save_data st .sqlite b).failedRows))) := by
  refine ⟨fun h => ?_, fun h => ?_, rfl, rfl, fun r hr hdata => ?_⟩
  · simp [save_data, h]
  · simp [save_data, h]
  · exact saveRowsSqlite_mem b st.changed_rows r hr hdata

/-- Witness for C9 at a concrete state and backend: rows `[1, 2]` dirty, row 2's
database save failing; the FILE branch clears exactly on success, and the SQLITE
branch completes, clears, saves row 1 and reports row 2. -/
theorem C9_save_clearing_witness :
    ((save_data ⟨[1, 2], ["x"], true⟩ .file
        ⟨true, fun _ => true, fun r => r ≠ 2, fun _ => true⟩).tracking =
      ⟨[], [], false⟩) ∧
    ((save_data ⟨[1, 2], ["x"], true⟩ .file
        ⟨false, fun _ => true, fun r => r ≠ 2, fun _ => true⟩).tracking =
      ⟨[1, 2], ["x"], true⟩) ∧
    ((1 : Int) ∈ (save_data ⟨[1, 2], ["x"], true⟩ .sqlite
        ⟨true, fun _ => true, fun r => r ≠ 2, fun _ => true⟩).savedRows ∧
     (2 : Int) ∈ (save_data ⟨[1, 2], ["x"], true⟩ .sqlite
        ⟨true, fun _ => true, fun r => r ≠ 2, fun _ => true⟩).failedRows) :=
  ⟨((C9_save_clearing ⟨[1, 2], ["x"], true⟩
      ⟨true, fun _ => true, fun r => r ≠ 2, fun _ => true⟩).1 (by decide)).2,
   ((C9_save_clearing ⟨[1, 2], ["x"], true⟩
      ⟨false, fun _ => true, fun r => r ≠ 2, fun _ => true⟩).2.1 (by decide)).2,
   ((C9_save_clearing ⟨[1, 2], ["x"], true⟩
      ⟨true, fun _ => true, fun r => r ≠ 2, fun _ => true⟩).2.2.2.2 1 (by decide)
      (by decide)).1 (by decide),
   ((C9_save_clearing ⟨[1, 2], ["x"], true⟩
      ⟨true, fun _ => true, fun r => r ≠ 2, fun _ => true⟩).2.2.2.2 2 (by decide)
      (by decide)).2 (by decide)⟩

/-- `EditableTable.add_to_rows_to_save`: a negative index, an index beyond the data
length, or an index already tracked is silently ignored; otherwise it is appended. -/
def add_to_rows_to_save (dataLen : Nat) (changed : List Int) (row_index : Int) :
    List Int :=
  if row_index < 0 ∨ row_index > (dataLen : Int) ∨ row_index ∈ changed then changed
  else changed ++ [row_index]

/-- `EditableTable.add_to_asset_ids_to_delete`: an asset id already tracked is
silently ignored; otherwise it is appended. -/
def add_to_asset_ids_to_delete (deleted : List String) (asset_id : String) :
    List String :=
  if asset_id ∈ deleted then deleted else deleted ++ [asset_id]

/-- An arbitrary interleaving of the two tracking calls; each `add_to_rows_to_save`
call carries the data length at call time. -/
def applyTrackOps : List ((Nat × Int) ⊕ String) → List Int × List String →
    List Int × List String
  | [], s => s
  | op :: rest, s =>
    applyTrackOps rest
      (match op with
       | .inl (len, i) => (add_to_rows_to_save len s.1 i, s.2)
       | .inr a => (s.1, add_to_asset_ids_to_delete s.2 a))

theorem applyTrackOps_invariant :
    ∀ (ops : List ((Nat × Int) ⊕ String)) (c : List Int) (d : List String),
    c.Nodup → (∀ i ∈ c, 0 ≤ i) → d.Nodup →
    (applyTrackOps ops (c, d)).1.Nodup ∧
      (∀ i ∈ (applyTrackOps ops (c, d)).1, 0 ≤ i) ∧
      (applyTrackOps ops (c, d)).2.Nodup
  | [], c, d, hc, hge, hd => ⟨hc, hge, hd⟩
  | op :: rest, c, d, hc, hge, hd => by
    simp only [applyTrackOps]
    cases op with
    | inl p =>
      obtain ⟨len, i⟩ := p
      simp only [add_to_rows_to_save]
      split
      · exact applyTrackOps_invariant rest c d hc hge hd
      next hcond =>
        push_neg at hcond
        refine applyTrackOps_invariant rest (c ++ [i]) d ?_ ?_ hd
        · exact List.Nodup.append hc (List.nodup_singleton i)
            (fun x hx hx2 => (List.mem_singleton.mp hx2 ▸ hcond.2.2) hx)
        · intro j hj
          rcases List.mem_append.mp hj with hj | hj
          · exact hge j hj
          · rw [List.mem_singleton.mp hj]
            omega
    | inr a =>
      simp only [add_to_asset_ids_to_delete]
      split
      · exact applyTrackOps_invariant rest c d hc hge hd
      next hcond =>
        refine applyTrackOps_invariant rest c (d ++ [a]) hc hge ?_
        exact List.Nodup.append hd (List.nodup_singleton a)
          (fun x hx hx2 => (List.mem_singleton.mp hx2 ▸ hcond) hx)

/-- C10 — Dirty/delete tracking invariant: after any sequence of
`add_to_rows_to_save` and `add_to_asset_ids_to_delete` calls starting from the empty
tracking state, the dirty-row list has no duplicate and no negative index, and the
deleted-asset-id list has no duplicate; a negative or already-present row index and
an already-present asset id are silently ignored. -/
theorem C10_tracking_invariant (ops : List ((Nat × Int) ⊕ String)) :
    ((applyTrackOps ops ([], [])).1.Nodup ∧
      (∀ i ∈ (applyTrackOps ops ([], [])).1, 0 ≤ i) ∧
      (applyTrackOps ops ([], [])).2.Nodup) ∧
    (∀ (len : Nat) (changed : List Int) (i : Int), i < 0 ∨ i ∈ changed →
      add_to_rows_to_save len changed i = changed) ∧
    (∀ (deleted : List String) (a : String), a ∈ deleted →
      add_to_asset_ids_to_delete deleted a = deleted) := by
  refine ⟨applyTrackOps_invariant ops [] [] (by simp) (by simp) (by simp), ?_, ?_⟩
  · intro len changed i h
    simp only [add_to_rows_to_save]
    rw [if_pos]
    rcases h with h | h
    · exact Or.inl h
    · exact Or.inr (Or.inr h)
  · intro deleted a h
    simp only [add_to_asset_ids_to_delete]
    rw [if_pos h]

/-- Witness for C10: a sequence with a duplicate row index, a negative index and a
duplicate asset id yields duplicate-free non-negative tracking lists, and the
redundant calls are no-ops. -/
theorem C10_tracking_invariant_witness :
    ((applyTrackOps [Sum.inl (10, 3), Sum.inl (10, 3), Sum.inl (10, -1),
        Sum.inr "a", Sum.inr "a", Sum.inl (10, 5)] ([], [])).1.Nodup ∧
      (∀ i ∈ (applyTrackOps [Sum.inl (10, 3), Sum.inl (10, 3), Sum.inl (10, -1),
        Sum.inr "a", Sum.inr "a", Sum.inl (10, 5)] ([], [])).1, 0 ≤ i) ∧
      (applyTrackOps [Sum.inl (10, 3), Sum.inl (10, 3), Sum.inl (10, -1),
        Sum.inr "a", Sum.inr "a", Sum.inl (10, 5)] ([], [])).2.Nodup) ∧
    add_to_rows_to_save 10 [3] 3 = [3] ∧
    add_to_asset_ids_to_delete ["a"] "a" = ["a"] :=
  ⟨(C10_tracking_invariant [Sum.inl (10, 3), Sum.inl (10, 3), Sum.inl (10, -1),
      Sum.inr "a", Sum.inr "a", Sum.inl (10, 5)]).1,
   (C10_tracking_invariant []).2.1 10 [3] 3 (Or.inr (by decide)),
   (C10_tracking_invariant []).2.2 ["a"] "a" (by decide)⟩

/-! ## Re-merging: serialization of a merged record back to a CSV row (claim C4) -/

/-- Decimal digits of a natural number, with explicit fuel so the definition is
structural (and kernel-evaluable). -/
def natDigitsFuel : Nat → Nat → List Char → List Char
  | 0, _, acc => acc
  | fuel + 1, n, acc =>
    if n = 0 then acc
    else natDigitsFuel fuel (n / 10) (Char.ofNat (48 + n % 10) :: acc)

/-- Decimal rendering of a natural number. -/
def natToDecimal (n : Nat) : String :=
  if n = 0 then "0" else String.mk (natDigitsFuel (n + 1) n [])

/-- Modelled from the spec: how `csv.writer` renders a merged numeric cell (Python's
`str` of a float): integral values render with a trailing `.0`; a non-integral
rational falls back to a `num/den` rendering (the merge only ever writes prices
parsed from decimal literals, so this branch does not arise on real data). -/
def ratToCSV (q : Rat) : String :=
  (if q.num < 0 then "-" else "") ++
    (if q.den = 1 then natToDecimal q.num.natAbs ++ ".0"
     else natToDecimal q.num.natAbs ++ "/" ++ natToDecimal q.den)

/-- Modelled from the spec: the flat-file serialization of one merged cell — strings
as-is, booleans as the literals `True`/`False` (§6 flat file format), numbers via
`ratToCSV`. -/
def toCSVCell : CellValue → String
  | .str s => s
  | .bool b => if b then "True" else "False"
  | .num q => ratToCSV q

/-- Reading the written row back with `csv.DictReader`: the registry header zipped
with the serialized cells. -/
def rowOfRecord (fieldNames : List String) (rec : List CellValue) : CsvRow :=
  fieldNames.zip (rec.map toCSVCell)

theorem lookupAssoc_mem {α : Type} :
    ∀ (l : List (String × α)) (key : String) (v : α),
    lookupAssoc l key = some v → (key, v) ∈ l
  | [], _, _, h => absurd h (by simp [lookupAssoc])
  | (k1, v1) :: rest, key, v, h => by
    simp only [lookupAssoc] at h
    by_cases hk : k1 = key
    · rw [if_pos hk] at h
      simp only [Option.some.injEq] at h
      subst h hk
      exact List.mem_cons_self _ _
    · rw [if_neg hk] at h
      exact List.mem_cons_of_mem _ (lookupAssoc_mem rest key v h)

/-- On a zip with duplicate-free keys, lookup of the `k`-th key returns the `k`-th
value. -/
theorem lookupAssoc_zip {α : Type} :
    ∀ (keys : List String) (vals : List α) (k : Nat) (f : String),
    keys.Nodup → keys.get? k = some f → k < vals.length →
    lookupAssoc (keys.zip vals) f = vals.get? k
  | [], _, k, _, _, hk, _ => absurd hk (by simp)
  | _ :: _, [], k, f, _, _, hv => absurd hv (by simp)
  | k1 :: krest, v1 :: vrest, 0, f, hnd, hk, _ => by
    simp only [List.get?_cons_zero, Option.some.injEq] at hk
    subst hk
    simp [List.zip_cons_cons, lookupAssoc]
  | k1 :: krest, v1 :: vrest, j + 1, f, hnd, hk, hv => by
    simp only [List.get?_cons_succ] at hk
    have hf : f ∈ krest := by
      have := List.get?_mem hk
      exact this
    have hk1 : k1 ≠ f := fun h => (List.nodup_cons.mp hnd).1 (h ▸ hf)
    simp only [List.zip_cons_cons, lookupAssoc, if_neg hk1, List.get?_cons_succ]
    exact lookupAssoc_zip krest vrest j f (List.nodup_cons.mp hnd).2 hk
      (by simpa using hv)

/-- Splitting undoes joining on a non-empty list of comma-free tokens. -/
theorem splitComma_joinComma_of_comma_free :
    ∀ l : List String, (∀ t ∈ l, ',' ∉ t.data) → l ≠ [] →
    splitComma (joinComma l) = l
  | [], _, h => absurd rfl h
  | [x], hcf, _ => by
    show splitComma x = [x]
    exact splitComma_of_not_mem x (hcf x (by simp))
  | x :: y :: rest, hcf, _ => by
    show splitComma (x ++ "," ++ joinComma (y :: rest)) = x :: y :: rest
    rw [splitComma_append, splitComma_of_not_mem x (hcf x (by simp)),
      splitComma_joinComma_of_comma_free (y :: rest)
        (fun t ht => hcf t (List.mem_cons_of_mem x ht)) (by simp)]
    rfl

/-- `Origin` sits at column 23 and nowhere else in the modelled registry. -/
theorem model_origin_index (k : Nat)
    (h : csv_field_name_list_model.get? k = some "Origin") : k = 23 := by
  have hlt : k < csv_field_name_list_model.length := by
    by_contra hge
    rw [List.get?_eq_none.mpr (Nat.le_of_not_lt hge)] at h
    exact absurd h (by simp)
  have h25 : k < 25 := by simpa [csv_field_name_list_model] using hlt
  interval_cases k <;> simp_all [csv_field_name_list_model]

/-- Serializing the coerced preserved value restores the stored string: the boolean
literals round-trip and any other value is kept verbatim. -/
theorem toCSV_coerce (v : String) :
    toCSVCell (if str_is_bool v then CellValue.bool (str_to_bool v)
               else CellValue.str v) = v := by
  by_cases hb : str_is_bool v = true
  · rw [if_pos hb]
    rcases (by simpa [str_is_bool] using hb : v = "True" ∨ v = "False") with rfl | rfl
    · rfl
    · rfl
  · rw [if_neg hb]
    rfl

/-- C4 (as amended) — Idempotent merge per record: re-merging the same incoming
record against the serialized output of a first merge reproduces that output exactly,
*provided* (a) the first merge ran against a well-formed row containing every
registry column with no empty-cell-marker values, (b) no serialized first-merge cell
equals the marker, (c) the incoming `Origin` cell is a single comma-free token, and
(d) the incoming price serializes to the same number as the stored price (no price
change).  Without (d) the `Old price` column drifts on the second merge — see the
counterexample — and without the marker conditions marker-cleared cells drift. -/
theorem C4_idempotent_merge (assetId : String) (assetData : List CellValue)
    (itemsInFile itemsInFile2 : List (String × CsvRow))
    (out1 out2 : MergeOutput) (row : CsvRow) (pv : String) (c15 : CellValue) (s : String)
    (hsucc1 : update_and_merge_csv_record_data csv_field_name_list_model is_preserved_model
      empty_cell_model 0 assetId assetData itemsInFile = some out1)
    (hrow : lookupAssoc itemsInFile assetId = some row)
    (hne : row ≠ [])
    (hcount : row.length = csv_field_name_list_model.length)
    (hlen : assetData.length = csv_field_name_list_model.length)
    (hkeys : ∀ f ∈ csv_field_name_list_model, (lookupAssoc row f).isSome)
    (hmark : ∀ p ∈ row, p.2 ≠ empty_cell_model)
    (hpv : lookupAssoc row "Price" = some pv)
    (h15 : assetData.get? 15 = some c15)
    (hpeq : convert_to_float_str (toCSVCell c15) = convert_to_float_str pv)
    (h23 : assetData.get? 23 = some (CellValue.str s))
    (hcomma : ',' ∉ s.data)
    (hout1mark : ∀ c ∈ out1.record, toCSVCell c ≠ empty_cell_model)
    (hrow2 : lookupAssoc itemsInFile2 assetId =
      some (rowOfRecord csv_field_name_list_model out1.record))
    (hsucc2 : update_and_merge_csv_record_data csv_field_name_list_model is_preserved_model
      empty_cell_model 0 assetId assetData itemsInFile2 = some out2) :
    out2.record = out1.record := by
  obtain ⟨hlen1, -, hcell1, -⟩ :=
    update_and_merge_spec _ _ _ _ _ _ _ _ _ hsucc1 hrow hne hcount
  have hlen1' : out1.record.length = 25 := by
    rw [hlen1, hlen]
    rfl
  have hrow2len : (rowOfRecord csv_field_name_list_model out1.record).length =
      csv_field_name_list_model.length := by
    simp [rowOfRecord, hlen1']
    rfl
  have hrow2ne : rowOfRecord csv_field_name_list_model out1.record ≠ [] := by
    intro h
    rw [h] at hrow2len
    exact absurd hrow2len.symm (by decide)
  obtain ⟨hlen2, -, hcell2, -⟩ :=
    update_and_merge_spec _ _ _ _ _ _ _ _ _ hsucc2 hrow2 hrow2ne hrow2len
  have hpvm : pv ≠ empty_cell_model := hmark _ (lookupAssoc_mem row "Price" pv hpv)
  have hpr1 : priceFold row empty_cell_model 0 csv_field_name_list_model (0, 0) =
      (15, convert_to_float_str pv) := by
    rw [priceFold_model, hpv]
    simp [hpvm]
  have hout1_15 : out1.record.get? 15 = some c15 := by
    have h := hcell1 15 "Price" (by rfl)
    rw [h15, hpr1] at h
    rw [h]
    simp [finalCell, cellOutOpt, cellOut, hpv, hpvm, is_preserved_model]
  have hrow2lookup : ∀ k f, csv_field_name_list_model.get? k = some f →
      lookupAssoc (rowOfRecord csv_field_name_list_model out1.record) f =
        (out1.record.get? k).map toCSVCell := by
    intro k f hk
    have hklt : k < csv_field_name_list_model.length := by
      rcases List.get?_eq_some.mp hk with ⟨h, -⟩
      exact h
    rw [rowOfRecord, lookupAssoc_zip csv_field_name_list_model _ k f (by decide) hk
      (by rw [List.length_map, hlen1']; exact hklt), List.get?_map]
  have hrow2pv : lookupAssoc (rowOfRecord csv_field_name_list_model out1.record) "Price" =
      some (toCSVCell c15) := by
    rw [hrow2lookup 15 "Price" (by rfl), hout1_15]
    rfl
  have hc15mark : toCSVCell c15 ≠ empty_cell_model :=
    hout1mark c15 (List.get?_mem hout1_15)
  have hpr2 : priceFold (rowOfRecord csv_field_name_list_model out1.record)
      empty_cell_model 0 csv_field_name_list_model (0, 0) =
      (15, convert_to_float_str pv) := by
    rw [priceFold_model, hrow2pv]
    simp [hc15mark, hpeq]
  refine List.ext_get? ?_
  intro k
  by_cases hklt : k < 25
  · have hkf : ∃ f, csv_field_name_list_model.get? k = some f := by
      rw [List.get?_eq_get (by simpa [csv_field_name_list_model] using hklt)]
      exact ⟨_, rfl⟩
    obtain ⟨f, hkf⟩ := hkf
    have e1 := hcell1 k f hkf
    have e2 := hcell2 k f hkf
    rw [hpr1] at e1
    rw [hpr2] at e2
    by_cases hk16 : k = 16
    · subst hk16
      rw [e1, e2]
      simp [finalCell]
    · have e1' : out1.record.get? k =
          cellOutOpt is_preserved_model empty_cell_model row f (assetData.get? k) := by
        rw [e1]
        simp [finalCell, hk16]
      have e2' : out2.record.get? k =
          cellOutOpt is_preserved_model empty_cell_model
            (rowOfRecord csv_field_name_list_model out1.record) f (assetData.get? k) := by
        rw [e2]
        simp [finalCell, hk16]
      have hfmem : f ∈ csv_field_name_list_model := List.get?_mem hkf
      obtain ⟨v, hv⟩ := Option.isSome_iff_exists.mp (hkeys f hfmem)
      have hvm : v ≠ empty_cell_model := hmark _ (lookupAssoc_mem row f v hv)
      cases hc : assetData.get? k with
      | none =>
        rw [hc] at e1' e2'
        rw [e1', e2']
        rfl
      | some c =>
        rw [hc] at e1' e2'
        have hrl : lookupAssoc (rowOfRecord csv_field_name_list_model out1.record) f =
            some (toCSVCell (cellOut is_preserved_model empty_cell_model row f c)) := by
          rw [hrow2lookup k f hkf, e1']
          rfl
        have hm2 : toCSVCell (cellOut is_preserved_model empty_cell_model row f c) ≠
            empty_cell_model :=
          hout1mark _ (List.get?_mem e1')
        rw [e1', e2']
        by_cases hP : is_preserved_model f = true
        · have hcout : cellOut is_preserved_model empty_cell_model row f c =
              (if str_is_bool v then CellValue.bool (str_to_bool v)
               else CellValue.str v) := by
            simp [cellOut, hv, hvm, hP]
          rw [hcout] at hrl hm2
          rw [toCSV_coerce v] at hrl hm2
          simp [cellOutOpt, cellOut, hrl, hm2, hvm, hP, hv, hcout]
        · by_cases hfo : f = "Origin"
          · subst hfo
            have hk23 : k = 23 := model_origin_index k hkf
            subst hk23
            have hcs : c = CellValue.str s := by
              rw [hc] at h23
              exact (Option.some.injEq _ _).mp h23
            subst hcs
            have hcout : cellOut is_preserved_model empty_cell_model row "Origin"
                (CellValue.str s) = CellValue.str (joinComma
                  (if s ∈ splitComma v then splitComma v else splitComma v ++ [s])) := by
              simp [cellOut, hv, hvm, is_preserved_model]
            rw [hcout] at hrl hm2
            have hcf2 : ∀ t ∈ (if s ∈ splitComma v then splitComma v
                else splitComma v ++ [s]), ',' ∉ t.data := by
              intro t ht
              split at ht
              · exact splitComma_token_no_comma v t ht
              · rcases List.mem_append.mp ht with ht | ht
                · exact splitComma_token_no_comma v t ht
                · rw [List.mem_singleton.mp ht]
                  exact hcomma
            have hne2 : (if s ∈ splitComma v then splitComma v
                else splitComma v ++ [s]) ≠ [] := by
              split
              · exact splitComma_ne_nil v
              · simp
            have hsplit2 : splitComma (joinComma (if s ∈ splitComma v then splitComma v
                else splitComma v ++ [s])) =
                (if s ∈ splitComma v then splitComma v else splitComma v ++ [s]) :=
              splitComma_joinComma_of_comma_free _ hcf2 hne2
            have hsmem : s ∈ (if s ∈ splitComma v then splitComma v
                else splitComma v ++ [s]) := by
              split
              next h => exact h
              next => exact List.mem_append_right _ (by simp)
            have hm2x : joinComma (if s ∈ splitComma v then splitComma v
                else splitComma v ++ [s]) ≠ empty_cell_model := by
              simpa [toCSVCell] using hm2
            have hrlx : lookupAssoc (rowOfRecord csv_field_name_list_model out1.record)
                "Origin" = some (joinComma (if s ∈ splitComma v then splitComma v
                else splitComma v ++ [s])) := by
              simpa [toCSVCell] using hrl
            have hgoal2 : cellOut is_preserved_model empty_cell_model
                (rowOfRecord csv_field_name_list_model out1.record) "Origin"
                (CellValue.str s) = CellValue.str (joinComma
                  (if s ∈ splitComma v then splitComma v else splitComma v ++ [s])) := by
              simp only [cellOut, hrlx]
              simp [hm2x, hsplit2, hsmem, is_preserved_model]
            show some (cellOut is_preserved_model empty_cell_model
                (rowOfRecord csv_field_name_list_model out1.record) "Origin"
                (CellValue.str s)) =
              some (cellOut is_preserved_model empty_cell_model row "Origin"
                (CellValue.str s))
            rw [hgoal2, hcout]
          · have hcout : cellOut is_preserved_model empty_cell_model row f c = c := by
              simp [cellOut, hv, hvm, hP, hfo]
            rw [hcout] at hrl hm2
            simp [cellOutOpt, cellOut, hrl, hm2, hP, hfo, hcout, hv, hvm]
  · have h1 : out1.record.get? k = none := by
      rw [List.get?_eq_none]
      omega
    have h2 : out2.record.get? k = none := by
      rw [List.get?_eq_none]
      have : out2.record.length = 25 := by
        rw [hlen2, hlen]
        rfl
      omega
    rw [h1, h2]

/-- Counterexample to C4 as stated: merging `sampleIncoming` into `sampleRow` gives
`Old price = 10` (the stored price), but merging the same incoming batch a second
time against the serialized output gives `Old price = 8` (the price just written) —
the one-step price history drifts on every re-merge that follows a price change. -/
theorem C4_idempotent_merge_counterexample :
    update_and_merge_csv_record_data csv_field_name_list_model is_preserved_model
      empty_cell_model 0 "A1" sampleIncoming [("A1", sampleRow)] = some sampleMerged ∧
    sampleMerged.record.get? 16 = some (CellValue.num 10) ∧
    (update_and_merge_csv_record_data csv_field_name_list_model is_preserved_model
        empty_cell_model 0 "A1" sampleIncoming
        [("A1", rowOfRecord csv_field_name_list_model sampleMerged.record)]).map
      (fun o => o.record.get? 16) = some (some (CellValue.num 8)) ∧
    ¬ (CellValue.num 8 = CellValue.num 10) := by
  exact ⟨by decide, by decide, by decide, by decide⟩

/-- The incoming record whose price equals the stored `10.0` (no price change). -/
def sampleIncomingSamePrice : List CellValue :=
  [.str "A1", .str "appA", .str "Title A", .str "cat", .num 5, .str "DevNew",
   .str "descN", .str "ACTIVE", .num 0, .num 0, .bool false,
   .bool true, .bool false, .str "4.27", .str "NO_ERROR", .num 10, .num 0,
   .str "", .num 0, .bool false, .str "", .str "", .str "",
   .str "folderY", .bool false]

/-- The merge of `sampleIncomingSamePrice` with `sampleRow`. -/
def samePriceMerged : MergeOutput :=
  ⟨[.str "A1", .str "appA", .str "Title A", .str "cat", .num 5, .str "DevNew",
    .str "descN", .str "ACTIVE", .num 0, .num 0, .bool false,
    .bool true, .bool false, .str "4.27", .str "NO_ERROR", .num 10, .num 10,
    .str "nice", .str "", .bool true, .str "", .str "", .str "",
    .str "folderX,folderY", .bool false], [], []⟩

/-- Witness for C4 (amended) at a concrete input with an unchanged price: merging
against the serialized marker-free record `samePriceMerged.record` reproduces it,
and the amended theorem applies at that input to give `out2.record = out1.record`. -/
theorem C4_idempotent_merge_witness :
    update_and_merge_csv_record_data csv_field_name_list_model is_preserved_model
      empty_cell_model 0 "A1" sampleIncomingSamePrice [("A1", sampleRow)] =
      some samePriceMerged ∧
    update_and_merge_csv_record_data csv_field_name_list_model is_preserved_model
      empty_cell_model 0 "A1" sampleIncomingSamePrice
      [("A1", rowOfRecord csv_field_name_list_model samePriceMerged.record)] =
      some samePriceMerged ∧
    samePriceMerged.record = samePriceMerged.record :=
  ⟨by decide, by decide,
   C4_idempotent_merge "A1" sampleIncomingSamePrice
     [("A1", rowOfRecord csv_field_name_list_model samePriceMerged.record)]
     [("A1", rowOfRecord csv_field_name_list_model samePriceMerged.record)]
     samePriceMerged samePriceMerged
     (rowOfRecord csv_field_name_list_model samePriceMerged.record)
     "10.0" (CellValue.num 10) "folderY"
     (by decide) (by decide) (by decide) (by decide) (by decide) (by decide) (by decide)
     (by decide) (by decide) (by decide) (by decide) (by decide) (by decide) (by decide)
     (by decide)⟩
